import Mathlib

/-! # Control-frame operations of the websocket stream

A shallow embedding of `boost/beast/websocket/impl/ping.ipp`: the composed
operation `ping_op` that sends ping and pong frames, its cleanup (`upcall`),
and the endpoint state it shares with the other operations of a stream.

`ping_op::operator()` is a stackless coroutine.  Each `BOOST_ASIO_CORO_YIELD`
is a resume point, named here after its line in the source; one call of
`operator()` is one call of `ping_op.call`, which runs from the resume point
it is given up to the next yield (or to the end of the coroutine).

The endpoint state carries a trace of the calls the operations make on their
collaborators (lock, queues, executor, next layer, completion handler), in the
order in which the source makes them.
-/

namespace websocket

/-! ## Data model -/

/-- The outcomes an operation reports: no error, the error `check_open` assigns
when the stream is not open (`operation_aborted`), or whatever error the next
layer reported for a write. -/
inductive error_code where
  | success
  | operation_aborted
  | failure (code : Nat)
  deriving DecidableEq, Repr

/-- The test `if(ec)` of the source: does the code hold an error. -/
def error_code.failed : error_code → Bool
  | .success => false
  | .operation_aborted => true
  | .failure _ => true

/-- The opcodes of `detail::opcode` that name a frame. -/
inductive opcode where
  | cont
  | text
  | binary
  | close
  | ping
  | pong
  deriving DecidableEq, Repr

/-- Modelled from the spec: `detail::frame_buffer` filled by `write_ping`,
whose source is missing.  The spec treats the frame encoder as a pure function
of opcode and payload called once at construction; the serialised frame is
kept as that pair. -/
structure frame_buffer where
  op : opcode
  payload : List Nat
  deriving DecidableEq, Repr

/-- Modelled from the spec: `write_ping(fb, op, payload)`, the frame encoder
called by the constructor of `ping_op::state`. -/
def write_ping (op : opcode) (payload : List Nat) : frame_buffer :=
  ⟨op, payload⟩

/-- The four categories of operation, one suspension queue each:
`paused_ping_`, `paused_close_`, `paused_rd_`, `paused_wr_`. -/
inductive category where
  | control
  | close
  | read
  | write
  deriving DecidableEq, Repr

/-- The resume points of the coroutine `ping_op::operator()`:
the entry, the four `BOOST_ASIO_CORO_YIELD`s (by source line), and the end. -/
inductive coro where
  | entry
  | yield91
  | yield101
  | yield108
  | yield119
  | complete
  deriving DecidableEq, Repr

/-- One composed operation: its category, the completion handler it was
constructed with, the identity under which the write lock knows it (the lock is
called with `this`; the class `ping_op` carries the constant `id` for it), and
the frame serialised at construction. -/
structure operation where
  cat : category
  handler : Nat
  id : Nat
  fb : frame_buffer
  deriving DecidableEq, Repr

/-- The calls an operation makes on its collaborators.  Operations are named by
their completion handler.  `try_lock` records whether it succeeded, `lock`
whether the lock was free when taken, `unlock` whether the caller held the lock
when releasing, `check_open` its result. -/
inductive event where
  | try_lock (handler : Nat) (ok : Bool)
  | check_open (handler : Nat) (ok : Bool)
  | emplace (c : category) (handler : Nat)
  | lock (handler : Nat) (free : Bool)
  | post (handler : Nat)
  | async_write (handler : Nat) (fb : frame_buffer)
  | unlock (handler : Nat) (held : Bool)
  | invoke (handler : Nat) (ec : error_code)
  deriving DecidableEq, Repr

/-- Modelled from the spec: the advisory write lock (`soft_mutex`), whose source
is missing.  It records the identity of the holder, or none. -/
structure soft_mutex where
  holder : Option Nat
  deriving DecidableEq, Repr

/-- Modelled from the spec: `is_held_by`. -/
def soft_mutex.is_locked (m : soft_mutex) (id : Nat) : Bool :=
  m.holder == some id

/-- Modelled from the spec: `try_acquire` succeeds and records the holder iff
the lock is currently unheld. -/
def soft_mutex.try_lock (m : soft_mutex) (id : Nat) : Bool × soft_mutex :=
  match m.holder with
  | none => (true, ⟨some id⟩)
  | some _ => (false, m)

/-- Modelled from the spec: the holder becomes the given operation (ownership
handed to a resumed waiter). -/
def soft_mutex.lock (_m : soft_mutex) (id : Nat) : soft_mutex :=
  ⟨some id⟩

/-- Modelled from the spec: `release` clears the holder and resumes no one. -/
def soft_mutex.unlock (_m : soft_mutex) (_id : Nat) : soft_mutex :=
  ⟨none⟩

/-- Modelled from the spec: the endpoint state (the members of `stream` that
`ping_op` uses; the class declaration is missing from the source).  `is_open` is
`status_ == status::open`; the four `paused_*_` queues hold suspended
operations (each waits at its own line-101 yield); `executor` holds the
continuations handed to `net::post` with their resume point and bound error
code; `stream_` holds the operations whose `async_write` on the next layer has
not completed yet. -/
structure stream where
  is_open : Bool
  wr_block_ : soft_mutex
  paused_close_ : List operation
  paused_rd_ : List operation
  paused_wr_ : List operation
  paused_ping_ : List operation
  executor : List (operation × coro × error_code)
  stream_ : List operation
  trace : List event
  deriving DecidableEq, Repr

/-- A freshly connected or closed endpoint on which nothing has happened. -/
def stream.idle (is_open : Bool) : stream :=
  { is_open := is_open, wr_block_ := ⟨none⟩, paused_close_ := [], paused_rd_ := [],
    paused_wr_ := [], paused_ping_ := [], executor := [], stream_ := [], trace := [] }

/-! ## Collaborator calls -/

/-- The same endpoint state with an empty trace. -/
def stream.untraced (s : stream) : stream :=
  { s with trace := [] }

/-- Append one event to the trace. -/
def stream.emit (s : stream) (e : event) : stream :=
  { s with trace := s.trace ++ [e] }

/-- The call `ws.wr_block_.try_lock(this)`. -/
def stream.try_lock (s : stream) (self : operation) : Bool × stream :=
  let r := s.wr_block_.try_lock self.id
  (r.1, { s with wr_block_ := r.2, trace := s.trace ++ [.try_lock self.handler r.1] })

/-- The call `ws.wr_block_.lock(this)`. -/
def stream.lock (s : stream) (self : operation) : stream :=
  { s with wr_block_ := s.wr_block_.lock self.id,
           trace := s.trace ++ [.lock self.handler (s.wr_block_.holder == none)] }

/-- The call `ws.wr_block_.unlock(this)`. -/
def stream.unlock (s : stream) (self : operation) : stream :=
  { s with wr_block_ := s.wr_block_.unlock self.id,
           trace := s.trace ++ [.unlock self.handler (s.wr_block_.is_locked self.id)] }

/-- Modelled from the spec: `ws.check_open(ec)`, whose source is missing.  It
returns whether the stream is open and assigns `ec`: no error when open, the
not-open error otherwise. -/
def stream.check_open (s : stream) (self : operation) : Bool × error_code × stream :=
  if s.is_open then (true, .success, s.emit (.check_open self.handler true))
  else (false, .operation_aborted, s.emit (.check_open self.handler false))

/-- Modelled from the spec: `ws.check_ok(ec)`, whose source is missing.  On a
transport failure the core marks the connection invalid. -/
def stream.check_ok (s : stream) (ec : error_code) : Bool × stream :=
  if ec.failed then (false, { s with is_open := false }) else (true, s)

/-- The suspension queue of a category. -/
def stream.paused (s : stream) : category → List operation
  | .control => s.paused_ping_
  | .close => s.paused_close_
  | .read => s.paused_rd_
  | .write => s.paused_wr_

/-- Replace the suspension queue of a category. -/
def stream.set_paused (s : stream) (c : category) (q : List operation) : stream :=
  match c with
  | .control => { s with paused_ping_ := q }
  | .close => { s with paused_close_ := q }
  | .read => { s with paused_rd_ := q }
  | .write => { s with paused_wr_ := q }

/-- Modelled from the spec: `paused_X_.emplace(std::move(*this))` (`enqueue`):
the operation is appended to the queue of category `c`. -/
def stream.emplace (s : stream) (c : category) (self : operation) : stream :=
  (s.set_paused c (s.paused c ++ [self])).emit (.emplace c self.handler)

/-- The call `net::post(ws.get_executor(), ...)`: the continuation joins the
executor with the resume point it will be re-entered at and the error code
bound to it. -/
def stream.post (s : stream) (self : operation) (pc : coro) (ec : error_code) : stream :=
  { s with executor := s.executor ++ [(self, pc, ec)],
           trace := s.trace ++ [.post self.handler] }

/-- The call `net::async_write(ws.stream_, fb.data(), std::move(*this))`. -/
def stream.async_write (s : stream) (self : operation) : stream :=
  { s with stream_ := s.stream_ ++ [self],
           trace := s.trace ++ [.async_write self.handler self.fb] }

/-- What a suspended operation does when its continuation is invoked from a
queue.  For `ping_op` these are lines 104 to 110 of the source: take the write
block, then post itself to the executor to be resumed at line 108.  The
operations of the other categories are not in the source; the spec gives them
the identical skeleton. -/
def operation.resume_paused (w : operation) (s : stream) : stream :=
  -- d_.ws.wr_block_.lock(this);
  let s := s.lock w
  -- BOOST_ASIO_CORO_YIELD net::post(d_.ws.get_executor(), std::move(*this));
  s.post w .yield108 .success

/-- Modelled from the spec: `paused_X_.maybe_invoke()` (`drain_one`): if the
queue is non-empty, remove its head and invoke it, returning true; else return
false and do nothing. -/
def stream.maybe_invoke (s : stream) (c : category) : Bool × stream :=
  match s.paused c with
  | [] => (false, s)
  | w :: q => (true, w.resume_paused (s.set_paused c q))

/-! ## The composed operation `ping_op` -/

/-- The constant `static constexpr int id = 3; // for soft_mutex` of `ping_op`. -/
def ping_op.id : Nat := 3

/-- The label `upcall` of `ping_op::operator()`, lines 125 to 130. -/
def ping_op.upcall (self : operation) (ec : error_code) (s : stream) : coro × stream :=
  -- d_.ws.wr_block_.unlock(this);
  let s := s.unlock self
  -- d_.ws.paused_close_.maybe_invoke() ||
  let r := s.maybe_invoke .close
  --     d_.ws.paused_rd_.maybe_invoke() ||
  let r := if r.1 then r else r.2.maybe_invoke .read
  --     d_.ws.paused_wr_.maybe_invoke();
  let r := if r.1 then r else r.2.maybe_invoke .write
  -- this->invoke(ec);
  (.complete, r.2.emit (.invoke self.handler ec))

/-- One call of `ping_op::operator()(ec, bytes_transferred)`, entered at the
resume point `pc`.  Returns the resume point the coroutine is left at and the
new endpoint state.  `BOOST_ASSERT(d_.ws.wr_block_.is_locked(this))` at line 111
is a debug check with no effect on the state. -/
def ping_op.call (self : operation) (pc : coro) (ec : error_code) (s : stream) :
    coro × stream :=
  match pc with
  | .entry =>
    -- if(d_.ws.wr_block_.try_lock(this))
    let r := s.try_lock self
    if r.1 then
      -- if(! d_.ws.check_open(ec))
      let c := r.2.check_open self
      if !c.1 then
        -- BOOST_ASIO_CORO_YIELD net::post(..., bind_front_handler(std::move(*this), ec));
        (.yield91, c.2.2.post self .yield91 c.2.1)
      else
        -- BOOST_ASIO_CORO_YIELD net::async_write(d_.ws.stream_, d_.fb.data(), std::move(*this));
        (.yield119, c.2.2.async_write self)
    else
      -- BOOST_ASIO_CORO_YIELD d_.ws.paused_ping_.emplace(std::move(*this));
      (.yield101, r.2.emplace .control self)
  | .yield91 =>
    -- goto upcall;
    ping_op.upcall self ec s
  | .yield101 =>
    -- d_.ws.wr_block_.lock(this);
    -- BOOST_ASIO_CORO_YIELD net::post(d_.ws.get_executor(), std::move(*this));
    (.yield108, self.resume_paused s)
  | .yield108 =>
    -- BOOST_ASSERT(d_.ws.wr_block_.is_locked(this));
    -- if(! d_.ws.check_open(ec)) goto upcall;
    let c := s.check_open self
    if !c.1 then
      ping_op.upcall self c.2.1 c.2.2
    else
      -- BOOST_ASIO_CORO_YIELD net::async_write(d_.ws.stream_, d_.fb.data(), std::move(*this));
      (.yield119, c.2.2.async_write self)
  | .yield119 =>
    -- if(! d_.ws.check_ok(ec)) goto upcall;
    let k := s.check_ok ec
    ping_op.upcall self ec k.2
  | .complete => (.complete, s)

/-- The initiating function `async_ping(payload, handler)`: construct the
`ping_op` (serialising the frame with `opcode::ping`) and call it once. -/
def stream.async_ping (s : stream) (payload : List Nat) (handler : Nat) : stream :=
  (ping_op.call ⟨.control, handler, ping_op.id, write_ping .ping payload⟩ .entry .success s).2

/-- The initiating function `async_pong(payload, handler)`: the same with
`opcode::pong`. -/
def stream.async_pong (s : stream) (payload : List Nat) (handler : Nat) : stream :=
  (ping_op.call ⟨.control, handler, ping_op.id, write_ping .pong payload⟩ .entry .success s).2

/-- The error code a continuation left at resume point `pc` is called with when
the executor or a queue resumes it: the one bound to it when it was posted
(the last entry of the executor), and the default argument `{}` for a
continuation that was not posted. -/
def stream.bound_ec (s : stream) (pc : coro) : error_code :=
  match pc, s.executor.getLast? with
  | .yield91, some p => p.2.2
  | .yield108, some p => p.2.2
  | _, _ => .success

/-- The whole life of one `ping_op`, from resume point `pc` on.  The k-th entry
of `env` is the endpoint state in which `operator()` is called the k-th time
(what the rest of the system did in between is arbitrary) and the outcome the
next layer reports, used when that call resumes a pending write; every other
call gets the error code `ec` bound to the continuation.  Returns the resume
point reached and the calls made, in order. -/
def ping_op.exec (self : operation) :
    coro → error_code → List (error_code × stream) → coro × List event
  | pc, _, [] => (pc, [])
  | pc, ec, e :: env =>
    let r := ping_op.call self pc (if pc = .yield119 then e.1 else ec) e.2.untraced
    let rest := ping_op.exec self r.1 (r.2.bound_ec r.1) env
    (rest.1, r.2.trace ++ rest.2)

/-! ## The operations of the other categories -/

/-- Modelled from the spec: the cleanup of a close, read or write operation,
whose source is missing (spec 4.3, state 5): release the lock, drain one
waiter trying close, read, write, control in that order, invoke completion. -/
def composed_op.upcall (self : operation) (ec : error_code) (s : stream) : coro × stream :=
  let s := s.unlock self
  let r := s.maybe_invoke .close
  let r := if r.1 then r else r.2.maybe_invoke .read
  let r := if r.1 then r else r.2.maybe_invoke .write
  let r := if r.1 then r else r.2.maybe_invoke .control
  (.complete, r.2.emit (.invoke self.handler ec))

/-- Modelled from the spec: one resumption of a close, read or write operation,
whose source is missing (spec 4.3, states 1 to 5, the skeleton shared with
`ping_op`); a waiting operation joins the queue of its own category. -/
def composed_op.call (self : operation) (pc : coro) (ec : error_code) (s : stream) :
    coro × stream :=
  match pc with
  | .entry =>
    let r := s.try_lock self
    if r.1 then
      let c := r.2.check_open self
      if !c.1 then (.yield91, c.2.2.post self .yield91 c.2.1)
      else (.yield119, c.2.2.async_write self)
    else (.yield101, r.2.emplace self.cat self)
  | .yield91 => composed_op.upcall self ec s
  | .yield101 => (.yield108, self.resume_paused s)
  | .yield108 =>
    let c := s.check_open self
    if !c.1 then composed_op.upcall self c.2.1 c.2.2
    else (.yield119, c.2.2.async_write self)
  | .yield119 =>
    let k := s.check_ok ec
    composed_op.upcall self ec k.2
  | .complete => (.complete, s)

/-! ## The endpoint as a transition system -/

/-- One call of the operation's `operator()`, by category. -/
def operation.call (self : operation) (pc : coro) (ec : error_code) (s : stream) :
    coro × stream :=
  match self.cat with
  | .control => ping_op.call self pc ec s
  | .close => composed_op.call self pc ec s
  | .read => composed_op.call self pc ec s
  | .write => composed_op.call self pc ec s

/-- What can happen next on an endpoint: an operation is started (its first
call), the executor runs one posted continuation, the next layer completes one
pending write with some outcome, or the connection status changes.  Operations
run one call at a time; calls interleave only at suspension points. -/
inductive action where
  | start (o : operation)
  | run (n : Nat)
  | write_done (n : Nat) (ec : error_code)
  | set_open (b : Bool)
  deriving DecidableEq, Repr

/-- One step of the endpoint; none when the action is not enabled. -/
def stream.step (s : stream) : action → Option stream
  | .start o => some (o.call .entry .success s).2
  | .run n =>
    match s.executor[n]? with
    | some p => some (p.1.call p.2.1 p.2.2 { s with executor := s.executor.eraseIdx n }).2
    | none => none
  | .write_done n ec =>
    match s.stream_[n]? with
    | some o => some (o.call .yield119 ec { s with stream_ := s.stream_.eraseIdx n }).2
    | none => none
  | .set_open b => some { s with is_open := b }

/-- Run a sequence of actions; none when one of them is not enabled. -/
def stream.steps (s : stream) : List action → Option stream
  | [] => some s
  | a :: as =>
    match s.step a with
    | some t => t.steps as
    | none => none

/-- The states an endpoint can be in: those a sequence of actions leads to from
an idle endpoint. -/
def stream.reachable (s : stream) : Prop :=
  ∃ (b : Bool) (as : List action), (stream.idle b).steps as = some s

/-! ## Reading the trace -/

/-- The completion handler invocations of a trace, in order. -/
def completions (t : List event) : List (Nat × error_code) :=
  t.filterMap fun e =>
    match e with
    | .invoke h ec => some (h, ec)
    | _ => none

/-- The transport writes issued in a trace, in order. -/
def writes (t : List event) : List (Nat × frame_buffer) :=
  t.filterMap fun e =>
    match e with
    | .async_write h fb => some (h, fb)
    | _ => none

/-- The lock releases of a trace, in order, each with whether the caller held
the lock. -/
def unlocks (t : List event) : List (Nat × Bool) :=
  t.filterMap fun e =>
    match e with
    | .unlock h held => some (h, held)
    | _ => none

/-- The calls a drain step adds to the trace: none, or those of the one waiter
it resumed (which takes the lock and posts itself). -/
def drain_events (mid : List event) : Prop :=
  mid = [] ∨ ∃ w, mid = [.lock w true, .post w]

/-- The lock discipline of an endpoint state: every posted continuation and
every operation with a write in flight holds the write lock, there is at most
one of them, every `unlock` so far was called by the holder and every `lock`
found the lock free. -/
structure stream.lock_inv (s : stream) : Prop where
  posted : ∀ p ∈ s.executor, s.wr_block_.holder = some p.1.id ∧
    (p.2.1 = .yield91 ∨ p.2.1 = .yield108)
  writing : ∀ o ∈ s.stream_, s.wr_block_.holder = some o.id
  single : s.executor.length + s.stream_.length ≤ 1
  released : ∀ u ∈ unlocks s.trace, u.2 = true
  taken : ∀ h, event.lock h false ∉ s.trace

/-- An endpoint state in which the operation `self`, about to be resumed, holds
the lock and nothing else is posted or writing. -/
structure stream.held_by (s : stream) (self : operation) : Prop where
  executor_nil : s.executor = []
  stream_nil : s.stream_ = []
  holder : s.wr_block_.holder = some self.id
  released : ∀ u ∈ unlocks s.trace, u.2 = true
  taken : ∀ h, event.lock h false ∉ s.trace

/-- Events that keep the trace part of the lock discipline. -/
def harmless (evs : List event) : Prop :=
  (∀ u ∈ unlocks evs, u.2 = true) ∧ ∀ h, event.lock h false ∉ evs

/-- A ping operation. -/
def sample_ping : operation := ⟨.control, 1, ping_op.id, write_ping .ping [1]⟩

/-- A pong operation. -/
def sample_pong : operation := ⟨.control, 2, ping_op.id, write_ping .pong [2]⟩

/-- A user write operation. -/
def sample_write : operation := ⟨.write, 3, 4, ⟨.text, [3]⟩⟩

/-- A close operation. -/
def sample_close : operation := ⟨.close, 4, 1, ⟨.close, []⟩⟩

/-- An open endpoint on which `sample_ping` is writing while a user write and
then a close were started: the state after the actions
`start sample_ping, start sample_write, start sample_close`. -/
def sample_contended : stream :=
  { is_open := true, wr_block_ := ⟨some 3⟩, paused_close_ := [sample_close],
    paused_rd_ := [], paused_wr_ := [sample_write], paused_ping_ := [], executor := [],
    stream_ := [sample_ping],
    trace := [.try_lock 1 true, .check_open 1 true, .async_write 1 (write_ping .ping [1]),
      .try_lock 3 false, .emplace .write 3, .try_lock 4 false, .emplace .close 4] }

/-- An open endpoint on which `sample_ping` is writing and nothing waits: the
state after the action `start sample_ping`. -/
def sample_writing : stream :=
  { is_open := true, wr_block_ := ⟨some 3⟩, paused_close_ := [], paused_rd_ := [],
    paused_wr_ := [], paused_ping_ := [], executor := [], stream_ := [sample_ping],
    trace := [.try_lock 1 true, .check_open 1 true, .async_write 1 (write_ping .ping [1])] }

/-- A closed endpoint on which `sample_ping` was started: it took the lock, found
the stream closed and posted itself.  The state after the action
`start sample_ping` on a closed idle endpoint. -/
def sample_posted : stream :=
  { is_open := false, wr_block_ := ⟨some 3⟩, paused_close_ := [], paused_rd_ := [],
    paused_wr_ := [], paused_ping_ := [],
    executor := [(sample_ping, .yield91, .operation_aborted)], stream_ := [],
    trace := [.try_lock 1 true, .check_open 1 false, .post 1] }

/-- The endpoint after `sample_ping` was started on a closed idle endpoint and
its posted continuation was run: the lock is released and completion invoked. -/
def sample_released : stream :=
  { is_open := false, wr_block_ := ⟨none⟩, paused_close_ := [], paused_rd_ := [],
    paused_wr_ := [], paused_ping_ := [], executor := [], stream_ := [],
    trace := [.try_lock 1 true, .check_open 1 false, .post 1, .unlock 1 true,
      .invoke 1 .operation_aborted] }

/-- An environment for a whole run of a `ping_op` that finds the lock held: it
is queued, resumed on an idle open endpoint, run, and its write succeeds. -/
def sample_env : List (error_code × stream) :=
  [(.success, sample_writing), (.success, stream.idle true), (.success, stream.idle true),
    (.success, stream.idle true)]

/-! ## The synchronous `ping` and `pong` -/

/-- Modelled from the spec: `check_open(ec)` as called from a function that is
not a composed operation: its result and the value it assigns to `ec`, as in
`stream.check_open`, with no entry in the trace of the operations. -/
def stream.check_open_sync (s : stream) : Bool × error_code :=
  if s.is_open then (true, .success) else (false, .operation_aborted)

/-- The function `stream::ping(payload, ec)`, lines 148 to 162.  `wr` is the
outcome `net::write` reports for the write it is asked to make.  Returns the
final value of `ec`, the new endpoint state and the frames handed to
`net::write`, in order. -/
def stream.ping (s : stream) (payload : List Nat) (wr : error_code) :
    error_code × stream × List frame_buffer :=
  -- if(! check_open(ec)) return;
  let c := s.check_open_sync
  if !c.1 then (c.2, s, [])
  else
    -- write_ping<flat_static_buffer_base>(fb, detail::opcode::ping, payload);
    let fb := write_ping .ping payload
    -- net::write(stream_, fb.data(), ec);
    let ec := wr
    -- if(! check_ok(ec)) return;
    let k := s.check_ok ec
    (ec, k.2, [fb])

/-- The function `stream::pong(payload, ec)`, lines 175 to 189. -/
def stream.pong (s : stream) (payload : List Nat) (wr : error_code) :
    error_code × stream × List frame_buffer :=
  -- if(! check_open(ec)) return;
  let c := s.check_open_sync
  if !c.1 then (c.2, s, [])
  else
    -- write_ping<flat_static_buffer_base>(fb, detail::opcode::pong, payload);
    let fb := write_ping .pong payload
    -- net::write(stream_, fb.data(), ec);
    let ec := wr
    -- if(! check_ok(ec)) return;
    let k := s.check_ok ec
    (ec, k.2, [fb])

/-- An open endpoint on which a user write is in flight and `sample_ping` waits
on the control queue: the state after the actions
`start sample_write, start sample_ping`. -/
def sample_ping_queued : stream :=
  { is_open := true, wr_block_ := ⟨some 4⟩, paused_close_ := [], paused_rd_ := [],
    paused_wr_ := [], paused_ping_ := [sample_ping], executor := [],
    stream_ := [sample_write],
    trace := [.try_lock 3 true, .check_open 3 true, .async_write 3 ⟨.text, [3]⟩,
      .try_lock 1 false, .emplace .control 1] }

/-- The endpoint after the write of `sample_write` completed on
`sample_ping_queued`: the cleanup of the write released the lock and resumed
`sample_ping`, which took the lock and is posted. -/
def sample_ping_resumed : stream :=
  { is_open := true, wr_block_ := ⟨some 3⟩, paused_close_ := [], paused_rd_ := [],
    paused_wr_ := [], paused_ping_ := [],
    executor := [(sample_ping, .yield108, .success)], stream_ := [],
    trace := [.try_lock 3 true, .check_open 3 true, .async_write 3 ⟨.text, [3]⟩,
      .try_lock 1 false, .emplace .control 1, .unlock 3 true, .lock 1 true,
      .post 1, .invoke 3 .success] }

end websocket

namespace http

/-! ## The header parameter tokenizer (`beast/http/detail/rfc7230.hpp`) -/

/-- A character of the source is its octet, a number below 256.  The value
`tab[static_cast<std::uint8_t>(c)]` of a table declared as `std::array<T, 256>`
and given by the list of its initialisers: an element that has no initialiser
is value-initialised, that is zero. -/
def tab_at (tab : List Int) (c : Nat) : Int :=
  tab.getD (c % 256) 0

/-- The function `is_digit`. -/
def is_digit (c : Nat) : Bool :=
  -- return c >= '0' && c <= '9';
  48 ≤ c && c ≤ 57

/-- The initialisers of `tab` in `is_alpha` (128 of them). -/
def is_alpha_tab : List Int :=
  [
    0, 0, 0, 0, 0, 0, 0, 0, 0, 0, 0, 0, 0, 0, 0, 0,
    0, 0, 0, 0, 0, 0, 0, 0, 0, 0, 0, 0, 0, 0, 0, 0,
    0, 0, 0, 0, 0, 0, 0, 0, 0, 0, 0, 0, 0, 0, 0, 0,
    0, 0, 0, 0, 0, 0, 0, 0, 0, 0, 0, 0, 0, 0, 0, 0,
    0, 1, 1, 1, 1, 1, 1, 1, 1, 1, 1, 1, 1, 1, 1, 1,
    1, 1, 1, 1, 1, 1, 1, 1, 1, 1, 1, 0, 0, 0, 0, 0,
    0, 1, 1, 1, 1, 1, 1, 1, 1, 1, 1, 1, 1, 1, 1, 1,
    1, 1, 1, 1, 1, 1, 1, 1, 1, 1, 1, 0, 0, 0, 0, 0
  ]

/-- The function `is_alpha`. -/
def is_alpha (c : Nat) : Bool :=
  tab_at is_alpha_tab c != 0

/-- The initialisers of `tab` in `is_text` (256 of them). -/
def is_text_tab : List Int :=
  [
    0, 0, 0, 0, 0, 0, 0, 0, 0, 1, 0, 0, 0, 0, 0, 0,
    0, 0, 0, 0, 0, 0, 0, 0, 0, 0, 0, 0, 0, 0, 0, 0,
    1, 1, 1, 1, 1, 1, 1, 1, 1, 1, 1, 1, 1, 1, 1, 1,
    1, 1, 1, 1, 1, 1, 1, 1, 1, 1, 1, 1, 1, 1, 1, 1,
    1, 1, 1, 1, 1, 1, 1, 1, 1, 1, 1, 1, 1, 1, 1, 1,
    1, 1, 1, 1, 1, 1, 1, 1, 1, 1, 1, 1, 1, 1, 1, 1,
    1, 1, 1, 1, 1, 1, 1, 1, 1, 1, 1, 1, 1, 1, 1, 1,
    1, 1, 1, 1, 1, 1, 1, 1, 1, 1, 1, 1, 1, 1, 1, 0,
    1, 1, 1, 1, 1, 1, 1, 1, 1, 1, 1, 1, 1, 1, 1, 1,
    1, 1, 1, 1, 1, 1, 1, 1, 1, 1, 1, 1, 1, 1, 1, 1,
    1, 1, 1, 1, 1, 1, 1, 1, 1, 1, 1, 1, 1, 1, 1, 1,
    1, 1, 1, 1, 1, 1, 1, 1, 1, 1, 1, 1, 1, 1, 1, 1,
    1, 1, 1, 1, 1, 1, 1, 1, 1, 1, 1, 1, 1, 1, 1, 1,
    1, 1, 1, 1, 1, 1, 1, 1, 1, 1, 1, 1, 1, 1, 1, 1,
    1, 1, 1, 1, 1, 1, 1, 1, 1, 1, 1, 1, 1, 1, 1, 1,
    1, 1, 1, 1, 1, 1, 1, 1, 1, 1, 1, 1, 1, 1, 1, 1
  ]

/-- The function `is_text`. -/
def is_text (c : Nat) : Bool :=
  tab_at is_text_tab c != 0

/-- The initialisers of `tab` in `is_tchar` (128 of them). -/
def is_tchar_tab : List Int :=
  [
    0, 0, 0, 0, 0, 0, 0, 0, 0, 0, 0, 0, 0, 0, 0, 0,
    0, 0, 0, 0, 0, 0, 0, 0, 0, 0, 0, 0, 0, 0, 0, 0,
    0, 1, 0, 1, 1, 1, 1, 1, 0, 0, 1, 1, 0, 1, 1, 0,
    1, 1, 1, 1, 1, 1, 1, 1, 1, 1, 0, 0, 0, 0, 0, 0,
    0, 1, 1, 1, 1, 1, 1, 1, 1, 1, 1, 1, 1, 1, 1, 1,
    1, 1, 1, 1, 1, 1, 1, 1, 1, 1, 1, 0, 0, 0, 1, 1,
    1, 1, 1, 1, 1, 1, 1, 1, 1, 1, 1, 1, 1, 1, 1, 1,
    1, 1, 1, 1, 1, 1, 1, 1, 1, 1, 1, 0, 1, 0, 1, 0
  ]

/-- The function `is_tchar`. -/
def is_tchar (c : Nat) : Bool :=
  tab_at is_tchar_tab c != 0

/-- The initialisers of `tab` in `is_qdchar` (256 of them). -/
def is_qdchar_tab : List Int :=
  [
    0, 0, 0, 0, 0, 0, 0, 0, 0, 1, 0, 0, 0, 0, 0, 0,
    0, 0, 0, 0, 0, 0, 0, 0, 0, 0, 0, 0, 0, 0, 0, 0,
    1, 1, 0, 1, 1, 1, 1, 1, 1, 1, 1, 1, 1, 1, 1, 1,
    1, 1, 1, 1, 1, 1, 1, 1, 1, 1, 1, 1, 1, 1, 1, 1,
    1, 1, 1, 1, 1, 1, 1, 1, 1, 1, 1, 1, 1, 1, 1, 1,
    1, 1, 1, 1, 1, 1, 1, 1, 1, 1, 1, 1, 0, 1, 1, 1,
    1, 1, 1, 1, 1, 1, 1, 1, 1, 1, 1, 1, 1, 1, 1, 1,
    1, 1, 1, 1, 1, 1, 1, 1, 1, 1, 1, 1, 1, 1, 1, 0,
    1, 1, 1, 1, 1, 1, 1, 1, 1, 1, 1, 1, 1, 1, 1, 1,
    1, 1, 1, 1, 1, 1, 1, 1, 1, 1, 1, 1, 1, 1, 1, 1,
    1, 1, 1, 1, 1, 1, 1, 1, 1, 1, 1, 1, 1, 1, 1, 1,
    1, 1, 1, 1, 1, 1, 1, 1, 1, 1, 1, 1, 1, 1, 1, 1,
    1, 1, 1, 1, 1, 1, 1, 1, 1, 1, 1, 1, 1, 1, 1, 1,
    1, 1, 1, 1, 1, 1, 1, 1, 1, 1, 1, 1, 1, 1, 1, 1,
    1, 1, 1, 1, 1, 1, 1, 1, 1, 1, 1, 1, 1, 1, 1, 1,
    1, 1, 1, 1, 1, 1, 1, 1, 1, 1, 1, 1, 1, 1, 1, 1
  ]

/-- The function `is_qdchar`. -/
def is_qdchar (c : Nat) : Bool :=
  tab_at is_qdchar_tab c != 0

/-- The initialisers of `tab` in `is_qpchar` (256 of them). -/
def is_qpchar_tab : List Int :=
  [
    0, 0, 0, 0, 0, 0, 0, 0, 0, 1, 0, 0, 0, 0, 0, 0,
    0, 0, 0, 0, 0, 0, 0, 0, 0, 0, 0, 0, 0, 0, 0, 0,
    1, 1, 1, 1, 1, 1, 1, 1, 1, 1, 1, 1, 1, 1, 1, 1,
    1, 1, 1, 1, 1, 1, 1, 1, 1, 1, 1, 1, 1, 1, 1, 1,
    1, 1, 1, 1, 1, 1, 1, 1, 1, 1, 1, 1, 1, 1, 1, 1,
    1, 1, 1, 1, 1, 1, 1, 1, 1, 1, 1, 1, 1, 1, 1, 1,
    1, 1, 1, 1, 1, 1, 1, 1, 1, 1, 1, 1, 1, 1, 1, 1,
    1, 1, 1, 1, 1, 1, 1, 1, 1, 1, 1, 1, 1, 1, 1, 0,
    1, 1, 1, 1, 1, 1, 1, 1, 1, 1, 1, 1, 1, 1, 1, 1,
    1, 1, 1, 1, 1, 1, 1, 1, 1, 1, 1, 1, 1, 1, 1, 1,
    1, 1, 1, 1, 1, 1, 1, 1, 1, 1, 1, 1, 1, 1, 1, 1,
    1, 1, 1, 1, 1, 1, 1, 1, 1, 1, 1, 1, 1, 1, 1, 1,
    1, 1, 1, 1, 1, 1, 1, 1, 1, 1, 1, 1, 1, 1, 1, 1,
    1, 1, 1, 1, 1, 1, 1, 1, 1, 1, 1, 1, 1, 1, 1, 1,
    1, 1, 1, 1, 1, 1, 1, 1, 1, 1, 1, 1, 1, 1, 1, 1,
    1, 1, 1, 1, 1, 1, 1, 1, 1, 1, 1, 1, 1, 1, 1, 1
  ]

/-- The function `is_qpchar`. -/
def is_qpchar (c : Nat) : Bool :=
  tab_at is_qpchar_tab c != 0

/-- The initialisers of `tab` in `to_field_char` (128 of them; the character
literals of the source are written as their octets). -/
def to_field_char_tab : List Int :=
  [
    0, 0, 0, 0, 0, 0, 0, 0, 0, 0, 0, 0, 0, 0, 0, 0,
    0, 0, 0, 0, 0, 0, 0, 0, 0, 0, 0, 0, 0, 0, 0, 0,
    0, 33, 0, 35, 36, 37, 38, 39, 0, 0, 42, 43, 0, 45, 46, 0,
    48, 49, 50, 51, 52, 53, 54, 55, 56, 57, 0, 0, 0, 0, 0, 0,
    0, 97, 98, 99, 100, 101, 102, 103, 104, 105, 106, 107, 108, 109, 110, 111,
    112, 113, 114, 115, 116, 117, 118, 119, 120, 121, 122, 0, 0, 0, 94, 95,
    96, 97, 98, 99, 100, 101, 102, 103, 104, 105, 106, 107, 108, 109, 110, 111,
    112, 113, 114, 115, 116, 117, 118, 119, 120, 121, 122, 0, 124, 0, 126, 0
  ]

/-- The function `to_field_char`: the lower-case octet, or 0. -/
def to_field_char (c : Nat) : Int :=
  tab_at to_field_char_tab c

/-- The initialisers of `tab` in `to_value_char` (256 of them). -/
def to_value_char_tab : List Int :=
  [
    0, 0, 0, 0, 0, 0, 0, 0, 0, 9, 0, 0, 0, 0, 0, 0,
    0, 0, 0, 0, 0, 0, 0, 0, 0, 0, 0, 0, 0, 0, 0, 0,
    32, 33, 34, 35, 36, 37, 38, 39, 40, 41, 42, 43, 44, 45, 46, 47,
    48, 49, 50, 51, 52, 53, 54, 55, 56, 57, 58, 59, 60, 61, 62, 63,
    64, 97, 98, 99, 100, 101, 102, 103, 104, 105, 106, 107, 108, 109, 110, 111,
    112, 113, 114, 115, 116, 117, 118, 119, 120, 121, 122, 91, 92, 93, 94, 95,
    96, 97, 98, 99, 100, 101, 102, 103, 104, 105, 106, 107, 108, 109, 110, 111,
    112, 113, 114, 115, 116, 117, 118, 119, 120, 121, 122, 123, 124, 125, 126, 0,
    128, 129, 130, 131, 132, 133, 134, 135, 136, 137, 138, 139, 140, 141, 142, 143,
    144, 145, 146, 147, 148, 149, 150, 151, 152, 153, 154, 155, 156, 157, 158, 159,
    160, 161, 162, 163, 164, 165, 166, 167, 168, 169, 170, 171, 172, 173, 174, 175,
    176, 177, 178, 179, 180, 181, 182, 183, 184, 185, 186, 187, 188, 189, 190, 191,
    192, 193, 194, 195, 196, 197, 198, 199, 200, 201, 202, 203, 204, 205, 206, 207,
    208, 209, 210, 211, 212, 213, 214, 215, 216, 217, 218, 219, 220, 221, 222, 223,
    224, 225, 226, 227, 228, 229, 230, 231, 232, 233, 234, 235, 236, 237, 238, 239,
    240, 241, 242, 243, 244, 245, 246, 247, 248, 249, 250, 251, 252, 253, 254, 255
  ]

/-- The function `to_value_char`: the lower-case octet, or 0. -/
def to_value_char (c : Nat) : Int :=
  tab_at to_value_char_tab c

/-- The initialisers of `tab` in `unhex` (128 of them). -/
def unhex_tab : List Int :=
  [
    -1, -1, -1, -1, -1, -1, -1, -1, -1, -1, -1, -1, -1, -1, -1, -1,
    -1, -1, -1, -1, -1, -1, -1, -1, -1, -1, -1, -1, -1, -1, -1, -1,
    -1, -1, -1, -1, -1, -1, -1, -1, -1, -1, -1, -1, -1, -1, -1, -1,
    0, 1, 2, 3, 4, 5, 6, 7, 8, 9, -1, -1, -1, -1, -1, -1,
    -1, 10, 11, 12, 13, 14, 15, -1, -1, -1, -1, -1, -1, -1, -1, -1,
    -1, -1, -1, -1, -1, -1, -1, -1, -1, -1, -1, -1, -1, -1, -1, -1,
    -1, 10, 11, 12, 13, 14, 15, -1, -1, -1, -1, -1, -1, -1, -1, -1,
    -1, -1, -1, -1, -1, -1, -1, -1, -1, -1, -1, -1, -1, -1, -1, -1
  ]

/-- The function `unhex`, of result type `std::int8_t`. -/
def unhex (c : Nat) : Int :=
  tab_at unhex_tab c

/-- The character `*it` of the character sequence `s` the iterators point into;
an iterator is the offset of its character. -/
def deref (s : List Nat) (it : Nat) : Nat :=
  s.getD it 0

/-- The loop of `skip_ows`, with fuel: `end - it` iterations are enough. -/
def skip_ows_loop (s : List Nat) (end_ : Nat) : Nat → Nat → Nat
  | 0, it => it
  | fuel + 1, it =>
    -- while(it != end)
    if it ≠ end_ then
      -- auto const c = *it;
      let c := deref s it
      -- if(c != ' ' && c != '\t') break;
      if c ≠ 32 ∧ c ≠ 9 then it
      -- ++it;
      else skip_ows_loop s end_ fuel (it + 1)
    else it

/-- The function `skip_ows(it, end)`: the new value of `it`. -/
def skip_ows (s : List Nat) (it end_ : Nat) : Nat :=
  skip_ows_loop s end_ (end_ - it) it

/-- A `boost::string_ref`: the offset of its first character and its length. -/
structure string_ref where
  ptr : Nat
  len : Nat
  deriving DecidableEq, Repr

/-- The call `clear()` of a `string_ref`: the length becomes zero. -/
def string_ref.clear (r : string_ref) : string_ref :=
  { r with len := 0 }

/-- The characters a `string_ref` into `s` denotes. -/
def string_ref.str (r : string_ref) (s : List Nat) : List Nat :=
  (s.drop r.ptr).take r.len

/-- The struct `param_iter`. -/
structure param_iter where
  it : Nat
  begin : Nat
  end_ : Nat
  v : string_ref × string_ref
  deriving DecidableEq, Repr

/-- The member `param_iter::empty()`. -/
def param_iter.empty (p : param_iter) : Bool :=
  -- return begin == it;
  p.begin == p.it

/-- The loop of lines 317 to 324 of `param_iter::increment`, over the name of
the parameter, with fuel: none when it returns `err()`, the new `it` when it
breaks. -/
def param_iter.name_loop (s : List Nat) (end_ : Nat) : Nat → Nat → Option Nat
  | 0, _ => none
  | fuel + 1, it =>
    -- ++it;
    let it := it + 1
    -- if(it == end) return err();
    if it = end_ then none
    -- if(! detail::is_tchar(*it)) break;
    else if !is_tchar (deref s it) then some it
    else param_iter.name_loop s end_ fuel it

/-- The loop of lines 340 to 356 of `param_iter::increment`, over a
quoted-string after its opening quote, with fuel: none when it returns `err()`,
the new `it` when it breaks. -/
def param_iter.quoted_loop (s : List Nat) (end_ : Nat) : Nat → Nat → Option Nat
  | 0, _ => none
  | fuel + 1, it =>
    -- if(it == end) return err();
    if it = end_ then none
    else
      -- auto c = *it++;
      let c := deref s it
      let it := it + 1
      -- if(c == '"') break;
      if c = 34 then some it
      -- if(detail::is_qdchar(c)) continue;
      else if is_qdchar c then param_iter.quoted_loop s end_ fuel it
      -- if(c != '\\') return err();
      else if c ≠ 92 then none
      -- if(it == end) return err();
      else if it = end_ then none
      else
        -- c = *it++;
        let c := deref s it
        let it := it + 1
        -- if(! detail::is_qpchar(c)) return err();
        if !is_qpchar c then none
        else param_iter.quoted_loop s end_ fuel it

/-- The loop of lines 366 to 373 of `param_iter::increment`, over a token
value, with fuel: the new `it`. -/
def param_iter.token_loop (s : List Nat) (end_ : Nat) : Nat → Nat → Nat
  | 0, it => it
  | fuel + 1, it =>
    -- it++;
    let it := it + 1
    -- if(it == end) break;
    if it = end_ then it
    -- if(! detail::is_tchar(*it)) break;
    else if !is_tchar (deref s it) then it
    else param_iter.token_loop s end_ fuel it

/-- The member `param_iter::increment()`, on the character sequence `s` the
iterators point into.  Each loop gets the fuel `end - it`, which is enough for it
since every iteration advances `it`. -/
def param_iter.increment (s : List Nat) (p : param_iter) : param_iter :=
  -- v.first.clear(); v.second.clear();
  let p := { p with v := (p.v.1.clear, p.v.2.clear) }
  -- detail::skip_ows(it, end);
  let p := { p with it := skip_ows s p.it p.end_ }
  -- begin = it;
  let p := { p with begin := p.it }
  -- auto const err = [&] { it = begin; };
  let err : param_iter := { p with it := p.begin }
  -- if(it == end) return err();
  if p.it = p.end_ then err
  -- if(*it != ';') return err();
  else if deref s p.it ≠ 59 then err
  else
    -- ++it;
    let it := p.it + 1
    -- detail::skip_ows(it, end);
    let it := skip_ows s it p.end_
    -- if(it == end) return err();
    if it = p.end_ then err
    -- if(! detail::is_tchar(*it)) return err();
    else if !is_tchar (deref s it) then err
    else
      -- auto const p0 = it;
      let p0 := it
      match param_iter.name_loop s p.end_ (p.end_ - it) it with
      | none => err
      | some it =>
        -- auto const p1 = it;
        let p1 := it
        -- detail::skip_ows(it, end);
        let it := skip_ows s it p.end_
        -- if(it == end) return err();
        if it = p.end_ then err
        -- if(*it != '=') return err();
        else if deref s it ≠ 61 then err
        else
          -- ++it;
          let it := it + 1
          -- detail::skip_ows(it, end);
          let it := skip_ows s it p.end_
          -- if(it == end) return err();
          if it = p.end_ then err
          -- if(*it == '"')
          else if deref s it = 34 then
            -- auto const p2 = it;
            let p2 := it
            -- ++it;
            let it := it + 1
            match param_iter.quoted_loop s p.end_ (p.end_ - it) it with
            | none => err
            | some it =>
              -- v.first = { &*p0, static_cast<std::size_t>(p1 - p0) };
              -- v.second = { &*p2, static_cast<std::size_t>(it - p2) };
              { p with it := it, v := (⟨p0, p1 - p0⟩, ⟨p2, it - p2⟩) }
          else
            -- if(! detail::is_tchar(*it)) return err();
            if !is_tchar (deref s it) then err
            else
              -- auto const p2 = it;
              let p2 := it
              let it := param_iter.token_loop s p.end_ (p.end_ - it) it
              -- v.first = { &*p0, static_cast<std::size_t>(p1 - p0) };
              -- v.second = { &*p2, static_cast<std::size_t>(it - p2) };
              { p with it := it, v := (⟨p0, p1 - p0⟩, ⟨p2, it - p2⟩) }

/-- The characters of the range `[a, b)` of `s`. -/
def range (s : List Nat) (a b : Nat) : List Nat :=
  (s.drop a).take (b - a)

/-- A `param_iter` over the whole of `s`, before the first `increment`. -/
def param_iter.over (s : List Nat) : param_iter :=
  { it := 0, begin := 0, end_ := s.length, v := (⟨0, 0⟩, ⟨0, 0⟩) }

/-- The example of the grammar comment, from its first semicolon on:
`;a=b;i=j,gzip;windowBits=12`. -/
def sample_params : List Nat :=
  [59, 97, 61, 98, 59, 105, 61, 106, 44, 103, 122, 105, 112, 59, 119, 105, 110, 100, 111,
    119, 66, 105, 116, 115, 61, 49, 50]

/-! ### The grammar of the comment of `param_iter::increment` -/

/-- The characters of `s` are octets. -/
def octets (s : List Nat) : Prop :=
  ∀ c ∈ s, c < 256

/-- The grammar's `OWS`: a run of SP and HTAB. -/
def grammar_ows (o : List Nat) : Prop :=
  ∀ c ∈ o, c = 32 ∨ c = 9

/-- The grammar's `tchar`: one of the fifteen characters listed in the comment of
`is_tchar`, a DIGIT or an ALPHA. -/
def grammar_tchar (c : Nat) : Prop :=
  c ∈ [33, 35, 36, 37, 38, 39, 42, 43, 45, 46, 94, 95, 96, 124, 126] ∨
    (48 ≤ c ∧ c ≤ 57) ∨ (65 ≤ c ∧ c ≤ 90) ∨ (97 ≤ c ∧ c ≤ 122)

/-- The grammar's `token = 1*tchar`. -/
def grammar_token (t : List Nat) : Prop :=
  t ≠ [] ∧ ∀ c ∈ t, grammar_tchar c

/-- The grammar's `qdtext = HTAB / SP / "!" / %x23-5B / %x5D-7E / obs-text`
with `obs-text = %x80-FF`. -/
def grammar_qdtext (c : Nat) : Prop :=
  c = 9 ∨ c = 32 ∨ c = 33 ∨ (0x23 ≤ c ∧ c ≤ 0x5B) ∨ (0x5D ≤ c ∧ c ≤ 0x7E) ∨
    (0x80 ≤ c ∧ c ≤ 0xFF)

/-- The character after the backslash of the grammar's
`quoted-pair = "\" ( HTAB / SP / VCHAR / obs-text )`, with `VCHAR = %x21-7E`. -/
def grammar_qpchar (c : Nat) : Prop :=
  c = 9 ∨ c = 32 ∨ (0x21 ≤ c ∧ c ≤ 0x7E) ∨ (0x80 ≤ c ∧ c ≤ 0xFF)

/-- The grammar's `*( qdtext / quoted-pair )`. -/
inductive grammar_quoted_body : List Nat → Prop where
  | nil : grammar_quoted_body []
  | qdtext (c : Nat) (r : List Nat) :
      grammar_qdtext c → grammar_quoted_body r → grammar_quoted_body (c :: r)
  | quoted_pair (c : Nat) (r : List Nat) :
      grammar_qpchar c → grammar_quoted_body r → grammar_quoted_body (92 :: c :: r)

/-- The grammar's `quoted-string = DQUOTE *( qdtext / quoted-pair ) DQUOTE`. -/
def grammar_quoted_string (v : List Nat) : Prop :=
  ∃ body, grammar_quoted_body body ∧ v = 34 :: body ++ [34]

/-- The input `inp` is, after optional leading SP and HTAB,
`";" OWS token OWS "=" OWS ( token / quoted-string )` followed by `rest`, with
`name` the first token and `value` the token or quoted-string; a token value is
the greedily matched one, that is `rest` does not go on with a `tchar`. -/
def grammar_param (inp name value rest : List Nat) : Prop :=
  ∃ o0 o1 o2 o3, grammar_ows o0 ∧ grammar_ows o1 ∧ grammar_ows o2 ∧ grammar_ows o3 ∧
    grammar_token name ∧
    ((grammar_token value ∧ ∀ c ∈ rest.head?, ¬ grammar_tchar c) ∨
      grammar_quoted_string value) ∧
    inp = o0 ++ 59 :: (o1 ++ (name ++ (o2 ++ 61 :: (o3 ++ (value ++ rest)))))

/-- The iterator `a` of the range that ends at `e` has the characters `l` before
it up to `e`. -/
def cursor (s : List Nat) (e a : Nat) (l : List Nat) : Prop :=
  a ≤ e ∧ e ≤ s.length ∧ range s a e = l

end http

namespace websocket

/-! # Lemmas -/

/-! ## One call of `ping_op::operator()`, resume point by resume point -/

theorem ping_op_call_entry_held (self : operation) (ec : error_code) (s : stream)
    (h : s.wr_block_.holder ≠ none) :
    ping_op.call self .entry ec s =
      (.yield101, { s with
        paused_ping_ := s.paused_ping_ ++ [self],
        trace := s.trace ++ [.try_lock self.handler false, .emplace .control self.handler] }) := by
  rcases hh : s.wr_block_.holder with _ | x
  · exact absurd hh h
  · simp [ping_op.call, stream.try_lock, soft_mutex.try_lock, hh, stream.emplace,
      stream.set_paused, stream.paused, stream.emit]

theorem ping_op_call_entry_closed (self : operation) (ec : error_code) (s : stream)
    (h : s.wr_block_.holder = none) (ho : s.is_open = false) :
    ping_op.call self .entry ec s =
      (.yield91, { s with
        wr_block_ := ⟨some self.id⟩,
        executor := s.executor ++ [(self, .yield91, .operation_aborted)],
        trace := s.trace ++ [.try_lock self.handler true, .check_open self.handler false,
          .post self.handler] }) := by
  simp [ping_op.call, stream.try_lock, soft_mutex.try_lock, h, ho, stream.check_open,
    stream.post, stream.emit]

theorem ping_op_call_entry_open (self : operation) (ec : error_code) (s : stream)
    (h : s.wr_block_.holder = none) (ho : s.is_open = true) :
    ping_op.call self .entry ec s =
      (.yield119, { s with
        wr_block_ := ⟨some self.id⟩,
        stream_ := s.stream_ ++ [self],
        trace := s.trace ++ [.try_lock self.handler true, .check_open self.handler true,
          .async_write self.handler self.fb] }) := by
  simp [ping_op.call, stream.try_lock, soft_mutex.try_lock, h, ho, stream.check_open,
    stream.async_write, stream.emit]

theorem ping_op_call_yield101 (self : operation) (ec : error_code) (s : stream) :
    ping_op.call self .yield101 ec s =
      (.yield108, { s with
        wr_block_ := ⟨some self.id⟩,
        executor := s.executor ++ [(self, .yield108, .success)],
        trace := s.trace ++ [.lock self.handler (s.wr_block_.holder == none),
          .post self.handler] }) := by
  simp [ping_op.call, operation.resume_paused, stream.lock, stream.post, soft_mutex.lock]

theorem ping_op_call_yield108_open (self : operation) (ec : error_code) (s : stream)
    (ho : s.is_open = true) :
    ping_op.call self .yield108 ec s =
      (.yield119, { s with
        stream_ := s.stream_ ++ [self],
        trace := s.trace ++ [.check_open self.handler true,
          .async_write self.handler self.fb] }) := by
  simp [ping_op.call, ho, stream.check_open, stream.async_write, stream.emit]

theorem ping_op_call_yield108_closed (self : operation) (ec : error_code) (s : stream)
    (ho : s.is_open = false) :
    ping_op.call self .yield108 ec s =
      ping_op.upcall self .operation_aborted
        { s with trace := s.trace ++ [.check_open self.handler false] } := by
  simp [ping_op.call, ho, stream.check_open, stream.emit]

theorem ping_op_call_yield119 (self : operation) (ec : error_code) (s : stream) :
    ping_op.call self .yield119 ec s =
      ping_op.upcall self ec { s with is_open := s.is_open && !ec.failed } := by
  cases h : ec.failed <;> simp [ping_op.call, stream.check_ok, h]

/-! ## The cleanup `upcall`, queue by queue -/

theorem ping_op_upcall_close (self : operation) (ec : error_code) (s : stream)
    (c : operation) (cs : List operation) (hc : s.paused_close_ = c :: cs) :
    ping_op.upcall self ec s =
      (.complete, { s with
        wr_block_ := ⟨some c.id⟩,
        paused_close_ := cs,
        executor := s.executor ++ [(c, .yield108, .success)],
        trace := s.trace ++ [.unlock self.handler (s.wr_block_.is_locked self.id),
          .lock c.handler true, .post c.handler, .invoke self.handler ec] }) := by
  simp [ping_op.upcall, stream.unlock, stream.maybe_invoke, stream.paused, stream.set_paused,
    operation.resume_paused, stream.lock, stream.post, stream.emit, soft_mutex.lock,
    soft_mutex.unlock, hc]

theorem ping_op_upcall_rd (self : operation) (ec : error_code) (s : stream)
    (r : operation) (rs : List operation) (hc : s.paused_close_ = [])
    (hr : s.paused_rd_ = r :: rs) :
    ping_op.upcall self ec s =
      (.complete, { s with
        wr_block_ := ⟨some r.id⟩,
        paused_rd_ := rs,
        executor := s.executor ++ [(r, .yield108, .success)],
        trace := s.trace ++ [.unlock self.handler (s.wr_block_.is_locked self.id),
          .lock r.handler true, .post r.handler, .invoke self.handler ec] }) := by
  simp [ping_op.upcall, stream.unlock, stream.maybe_invoke, stream.paused, stream.set_paused,
    operation.resume_paused, stream.lock, stream.post, stream.emit, soft_mutex.lock,
    soft_mutex.unlock, hc, hr]

theorem ping_op_upcall_wr (self : operation) (ec : error_code) (s : stream)
    (w : operation) (ws : List operation) (hc : s.paused_close_ = [])
    (hr : s.paused_rd_ = []) (hw : s.paused_wr_ = w :: ws) :
    ping_op.upcall self ec s =
      (.complete, { s with
        wr_block_ := ⟨some w.id⟩,
        paused_wr_ := ws,
        executor := s.executor ++ [(w, .yield108, .success)],
        trace := s.trace ++ [.unlock self.handler (s.wr_block_.is_locked self.id),
          .lock w.handler true, .post w.handler, .invoke self.handler ec] }) := by
  simp [ping_op.upcall, stream.unlock, stream.maybe_invoke, stream.paused, stream.set_paused,
    operation.resume_paused, stream.lock, stream.post, stream.emit, soft_mutex.lock,
    soft_mutex.unlock, hc, hr, hw]

theorem ping_op_upcall_none (self : operation) (ec : error_code) (s : stream)
    (hc : s.paused_close_ = []) (hr : s.paused_rd_ = []) (hw : s.paused_wr_ = []) :
    ping_op.upcall self ec s =
      (.complete, { s with
        wr_block_ := ⟨none⟩,
        trace := s.trace ++ [.unlock self.handler (s.wr_block_.is_locked self.id),
          .invoke self.handler ec] }) := by
  simp [ping_op.upcall, stream.unlock, stream.maybe_invoke, stream.paused, stream.emit,
    soft_mutex.unlock, hc, hr, hw]

theorem ping_op_upcall_trace (self : operation) (ec : error_code) (s : stream) :
    ∃ mid, drain_events mid ∧
      (ping_op.upcall self ec s).2.trace =
        s.trace ++ .unlock self.handler (s.wr_block_.is_locked self.id) :: mid ++
          [.invoke self.handler ec] := by
  rcases hc : s.paused_close_ with _ | ⟨c, cs⟩
  · rcases hr : s.paused_rd_ with _ | ⟨r, rs⟩
    · rcases hw : s.paused_wr_ with _ | ⟨w, ws⟩
      · exact ⟨[], Or.inl rfl, by simp [ping_op_upcall_none self ec s hc hr hw]⟩
      · exact ⟨_, Or.inr ⟨w.handler, rfl⟩, by simp [ping_op_upcall_wr self ec s w ws hc hr hw]⟩
    · exact ⟨_, Or.inr ⟨r.handler, rfl⟩, by simp [ping_op_upcall_rd self ec s r rs hc hr]⟩
  · exact ⟨_, Or.inr ⟨c.handler, rfl⟩, by simp [ping_op_upcall_close self ec s c cs hc]⟩

theorem ping_op_upcall_coro (self : operation) (ec : error_code) (s : stream) :
    (ping_op.upcall self ec s).1 = .complete := rfl

/-! ## Whole runs of one `ping_op` -/

theorem ping_op_exec_complete (self : operation) (ec : error_code)
    (env : List (error_code × stream)) :
    ping_op.exec self .complete ec env = (.complete, []) := by
  induction env generalizing ec with
  | nil => rfl
  | cons e env ih => simp [ping_op.exec, ping_op.call, ih, stream.untraced]

theorem ping_op_exec_cons (self : operation) (pc : coro) (ec : error_code)
    (e : error_code × stream) (env : List (error_code × stream)) (pc1 : coro) (s1 : stream)
    (h : ping_op.call self pc (if pc = .yield119 then e.1 else ec) e.2.untraced = (pc1, s1)) :
    ping_op.exec self pc ec (e :: env) =
      ((ping_op.exec self pc1 (s1.bound_ec pc1) env).1,
        s1.trace ++ (ping_op.exec self pc1 (s1.bound_ec pc1) env).2) := by
  simp [ping_op.exec, h]

theorem ping_op_exec_upcall (self : operation) (pc : coro) (ec : error_code)
    (e : error_code × stream) (env : List (error_code × stream)) (ec0 : error_code)
    (s0 : stream)
    (hcall : ping_op.call self pc (if pc = .yield119 then e.1 else ec) e.2.untraced =
      ping_op.upcall self ec0 s0) :
    ∃ mid, drain_events mid ∧
      ping_op.exec self pc ec (e :: env) =
        (.complete, s0.trace ++ .unlock self.handler (s0.wr_block_.is_locked self.id) :: mid ++
          [.invoke self.handler ec0]) := by
  obtain ⟨mid, hmid, ht⟩ := ping_op_upcall_trace self ec0 s0
  refine ⟨mid, hmid, ?_⟩
  simp only [ping_op.exec, hcall, ping_op_upcall_coro, ping_op_exec_complete, ht]
  simp

theorem ping_op_exec_sync_closed (self : operation) (e1 e2 : error_code × stream)
    (rest : List (error_code × stream))
    (h1 : e1.2.wr_block_.holder = none) (ho : e1.2.is_open = false) :
    ∃ mid, drain_events mid ∧
      ping_op.exec self .entry .success (e1 :: e2 :: rest) =
        (.complete, [.try_lock self.handler true, .check_open self.handler false,
            .post self.handler, .unlock self.handler (e2.2.wr_block_.is_locked self.id)] ++ mid ++
            [.invoke self.handler .operation_aborted]) := by
  obtain ⟨mid, hmid, ht⟩ := ping_op_exec_upcall self .yield91 .operation_aborted e2 rest
    .operation_aborted e2.2.untraced rfl
  refine ⟨mid, hmid, ?_⟩
  rw [ping_op_exec_cons self _ _ _ _ _ _ (ping_op_call_entry_closed self _ _ h1 ho)]
  simp [stream.bound_ec, ht, stream.untraced]

theorem ping_op_exec_sync_open (self : operation) (e1 e2 : error_code × stream)
    (rest : List (error_code × stream))
    (h1 : e1.2.wr_block_.holder = none) (ho : e1.2.is_open = true) :
    ∃ mid, drain_events mid ∧
      ping_op.exec self .entry .success (e1 :: e2 :: rest) =
        (.complete, [.try_lock self.handler true, .check_open self.handler true,
            .async_write self.handler self.fb,
            .unlock self.handler (e2.2.wr_block_.is_locked self.id)] ++ mid ++
            [.invoke self.handler e2.1]) := by
  obtain ⟨mid, hmid, ht⟩ := ping_op_exec_upcall self .yield119 .success e2 rest
    e2.1 _ (ping_op_call_yield119 self _ _)
  refine ⟨mid, hmid, ?_⟩
  rw [ping_op_exec_cons self _ _ _ _ _ _ (ping_op_call_entry_open self _ _ h1 ho)]
  simp [stream.bound_ec, ht, stream.untraced]

theorem ping_op_exec_queued_closed (self : operation) (e1 e2 e3 : error_code × stream)
    (rest : List (error_code × stream))
    (h1 : e1.2.wr_block_.holder ≠ none) (ho : e3.2.is_open = false) :
    ∃ mid, drain_events mid ∧
      ping_op.exec self .entry .success (e1 :: e2 :: e3 :: rest) =
        (.complete, [.try_lock self.handler false, .emplace .control self.handler,
            .lock self.handler (e2.2.wr_block_.holder == none), .post self.handler,
            .check_open self.handler false,
            .unlock self.handler (e3.2.wr_block_.is_locked self.id)] ++ mid ++
            [.invoke self.handler .operation_aborted]) := by
  obtain ⟨mid, hmid, ht⟩ := ping_op_exec_upcall self .yield108 .success e3 rest
    .operation_aborted _ (ping_op_call_yield108_closed self _ _ ho)
  refine ⟨mid, hmid, ?_⟩
  rw [ping_op_exec_cons self _ _ _ _ _ _ (ping_op_call_entry_held self _ _ h1),
    ping_op_exec_cons self _ _ _ _ _ _ (ping_op_call_yield101 self _ _)]
  simp [stream.bound_ec, ht, stream.untraced]

theorem ping_op_exec_queued_open (self : operation) (e1 e2 e3 e4 : error_code × stream)
    (rest : List (error_code × stream))
    (h1 : e1.2.wr_block_.holder ≠ none) (ho : e3.2.is_open = true) :
    ∃ mid, drain_events mid ∧
      ping_op.exec self .entry .success (e1 :: e2 :: e3 :: e4 :: rest) =
        (.complete, [.try_lock self.handler false, .emplace .control self.handler,
            .lock self.handler (e2.2.wr_block_.holder == none), .post self.handler,
            .check_open self.handler true, .async_write self.handler self.fb,
            .unlock self.handler (e4.2.wr_block_.is_locked self.id)] ++ mid ++
            [.invoke self.handler e4.1]) := by
  obtain ⟨mid, hmid, ht⟩ := ping_op_exec_upcall self .yield119 .success e4 rest
    e4.1 _ (ping_op_call_yield119 self _ _)
  refine ⟨mid, hmid, ?_⟩
  rw [ping_op_exec_cons self _ _ _ _ _ _ (ping_op_call_entry_held self _ _ h1),
    ping_op_exec_cons self _ _ _ _ _ _ (ping_op_call_yield101 self _ _),
    ping_op_exec_cons self _ _ _ _ _ _ (ping_op_call_yield108_open self _ _ ho)]
  simp [stream.bound_ec, ht, stream.untraced]

/-! ## The lock discipline is kept by every step -/

theorem unlocks_append (t u : List event) : unlocks (t ++ u) = unlocks t ++ unlocks u := by
  simp [unlocks, List.filterMap_append]

theorem harmless_released (t evs : List event) (hr : ∀ u ∈ unlocks t, u.2 = true)
    (h : harmless evs) : ∀ u ∈ unlocks (t ++ evs), u.2 = true := by
  intro u hu
  rw [unlocks_append, List.mem_append] at hu
  rcases hu with hu | hu
  · exact hr u hu
  · exact h.1 u hu

theorem harmless_taken (t evs : List event) (ht : ∀ h, event.lock h false ∉ t)
    (h : harmless evs) : ∀ x, event.lock x false ∉ t ++ evs := by
  intro x hx
  rw [List.mem_append] at hx
  rcases hx with hx | hx
  · exact ht x hx
  · exact h.2 x hx

theorem stream_lock_inv_idle (b : Bool) : (stream.idle b).lock_inv := by
  constructor <;> simp [stream.idle, unlocks]

theorem stream_lock_inv_posted (t : stream) (tr evs : List event) (w : operation) (pc : coro)
    (ec : error_code) (hr : ∀ u ∈ unlocks tr, u.2 = true) (ht : ∀ h, event.lock h false ∉ tr)
    (he : t.executor = [(w, pc, ec)]) (hpc : pc = .yield91 ∨ pc = .yield108)
    (hs : t.stream_ = []) (hh : t.wr_block_.holder = some w.id)
    (htr : t.trace = tr ++ evs) (hev : harmless evs) : t.lock_inv := by
  constructor
  · intro p hp
    rw [he, List.mem_singleton] at hp
    subst hp
    exact ⟨hh, hpc⟩
  · intro o ho
    simp [hs] at ho
  · simp [he, hs]
  · rw [htr]; exact harmless_released tr evs hr hev
  · rw [htr]; exact harmless_taken tr evs ht hev

theorem stream_lock_inv_writing (t : stream) (tr evs : List event) (w : operation)
    (hr : ∀ u ∈ unlocks tr, u.2 = true) (ht : ∀ h, event.lock h false ∉ tr)
    (he : t.executor = []) (hs : t.stream_ = [w]) (hh : t.wr_block_.holder = some w.id)
    (htr : t.trace = tr ++ evs) (hev : harmless evs) : t.lock_inv := by
  constructor
  · intro p hp
    simp [he] at hp
  · intro o ho
    rw [hs, List.mem_singleton] at ho
    subst ho
    exact hh
  · simp [he, hs]
  · rw [htr]; exact harmless_released tr evs hr hev
  · rw [htr]; exact harmless_taken tr evs ht hev

theorem stream_lock_inv_quiet (t : stream) (tr evs : List event)
    (hr : ∀ u ∈ unlocks tr, u.2 = true) (ht : ∀ h, event.lock h false ∉ tr)
    (he : t.executor = []) (hs : t.stream_ = [])
    (htr : t.trace = tr ++ evs) (hev : harmless evs) : t.lock_inv := by
  constructor
  · intro p hp
    simp [he] at hp
  · intro o ho
    simp [hs] at ho
  · simp [he, hs]
  · rw [htr]; exact harmless_released tr evs hr hev
  · rw [htr]; exact harmless_taken tr evs ht hev

theorem stream_lock_inv_frame (s t : stream) (evs : List event) (h : s.lock_inv)
    (he : t.executor = s.executor) (hs : t.stream_ = s.stream_)
    (hh : t.wr_block_ = s.wr_block_) (htr : t.trace = s.trace ++ evs) (hev : harmless evs) :
    t.lock_inv := by
  constructor
  · rw [he, hh]; exact h.posted
  · rw [hs, hh]; exact h.writing
  · rw [he, hs]; exact h.single
  · rw [htr]; exact harmless_released _ evs h.released hev
  · rw [htr]; exact harmless_taken _ evs h.taken hev

theorem ping_op_upcall_lock_inv (self : operation) (ec : error_code) (s : stream)
    (h : s.held_by self) : (ping_op.upcall self ec s).2.lock_inv := by
  obtain ⟨he, hs, hh, hr, ht⟩ := h
  have hl : s.wr_block_.is_locked self.id = true := by simp [soft_mutex.is_locked, hh]
  rcases hc : s.paused_close_ with _ | ⟨c, cs⟩
  · rcases hrd : s.paused_rd_ with _ | ⟨r, rs⟩
    · rcases hw : s.paused_wr_ with _ | ⟨w, ws⟩
      · rw [ping_op_upcall_none self ec s hc hrd hw]
        exact stream_lock_inv_quiet _ s.trace _ hr ht he hs rfl (by simp [harmless, unlocks, hl])
      · rw [ping_op_upcall_wr self ec s w ws hc hrd hw]
        exact stream_lock_inv_posted _ s.trace _ w .yield108 .success hr ht (by simp [he])
          (Or.inr rfl) hs rfl rfl (by simp [harmless, unlocks, hl])
    · rw [ping_op_upcall_rd self ec s r rs hc hrd]
      exact stream_lock_inv_posted _ s.trace _ r .yield108 .success hr ht (by simp [he])
        (Or.inr rfl) hs rfl rfl (by simp [harmless, unlocks, hl])
  · rw [ping_op_upcall_close self ec s c cs hc]
    exact stream_lock_inv_posted _ s.trace _ c .yield108 .success hr ht (by simp [he])
      (Or.inr rfl) hs rfl rfl (by simp [harmless, unlocks, hl])

theorem composed_op_upcall_eq (self : operation) (ec : error_code) (s : stream)
    (h : s.paused_close_ ≠ [] ∨ s.paused_rd_ ≠ [] ∨ s.paused_wr_ ≠ []) :
    composed_op.upcall self ec s = ping_op.upcall self ec s := by
  rcases hc : s.paused_close_ with _ | ⟨c, cs⟩
  · rcases hr : s.paused_rd_ with _ | ⟨r, rs⟩
    · rcases hw : s.paused_wr_ with _ | ⟨w, ws⟩
      · simp [hc, hr, hw] at h
      · simp [composed_op.upcall, ping_op.upcall, stream.unlock, stream.maybe_invoke,
          stream.paused, hc, hr, hw]
    · simp [composed_op.upcall, ping_op.upcall, stream.unlock, stream.maybe_invoke,
        stream.paused, hc, hr]
  · simp [composed_op.upcall, ping_op.upcall, stream.unlock, stream.maybe_invoke,
      stream.paused, hc]

theorem composed_op_upcall_ping (self : operation) (ec : error_code) (s : stream)
    (p : operation) (ps : List operation) (hc : s.paused_close_ = [])
    (hr : s.paused_rd_ = []) (hw : s.paused_wr_ = []) (hp : s.paused_ping_ = p :: ps) :
    composed_op.upcall self ec s =
      (.complete, { s with
        wr_block_ := ⟨some p.id⟩,
        paused_ping_ := ps,
        executor := s.executor ++ [(p, .yield108, .success)],
        trace := s.trace ++ [.unlock self.handler (s.wr_block_.is_locked self.id),
          .lock p.handler true, .post p.handler, .invoke self.handler ec] }) := by
  simp [composed_op.upcall, stream.unlock, stream.maybe_invoke, stream.paused,
    stream.set_paused, operation.resume_paused, stream.lock, stream.post, stream.emit,
    soft_mutex.lock, soft_mutex.unlock, hc, hr, hw, hp]

theorem composed_op_upcall_none (self : operation) (ec : error_code) (s : stream)
    (hc : s.paused_close_ = []) (hr : s.paused_rd_ = []) (hw : s.paused_wr_ = [])
    (hp : s.paused_ping_ = []) :
    composed_op.upcall self ec s =
      (.complete, { s with
        wr_block_ := ⟨none⟩,
        trace := s.trace ++ [.unlock self.handler (s.wr_block_.is_locked self.id),
          .invoke self.handler ec] }) := by
  simp [composed_op.upcall, stream.unlock, stream.maybe_invoke, stream.paused, stream.emit,
    soft_mutex.unlock, hc, hr, hw, hp]

theorem composed_op_upcall_lock_inv (self : operation) (ec : error_code) (s : stream)
    (h : s.held_by self) : (composed_op.upcall self ec s).2.lock_inv := by
  by_cases hq : s.paused_close_ ≠ [] ∨ s.paused_rd_ ≠ [] ∨ s.paused_wr_ ≠ []
  · rw [composed_op_upcall_eq self ec s hq]
    exact ping_op_upcall_lock_inv self ec s h
  · simp only [not_or, not_not] at hq
    obtain ⟨hc, hrd, hw⟩ := hq
    obtain ⟨he, hs, hh, hr, ht⟩ := h
    have hl : s.wr_block_.is_locked self.id = true := by simp [soft_mutex.is_locked, hh]
    rcases hp : s.paused_ping_ with _ | ⟨p, ps⟩
    · rw [composed_op_upcall_none self ec s hc hrd hw hp]
      exact stream_lock_inv_quiet _ s.trace _ hr ht he hs rfl (by simp [harmless, unlocks, hl])
    · rw [composed_op_upcall_ping self ec s p ps hc hrd hw hp]
      exact stream_lock_inv_posted _ s.trace _ p .yield108 .success hr ht (by simp [he])
        (Or.inr rfl) hs rfl rfl (by simp [harmless, unlocks, hl])

theorem stream_held_by_check_open (s : stream) (self : operation) (h : s.held_by self) :
    (s.check_open self).2.2.held_by self := by
  obtain ⟨he, hs, hh, hr, ht⟩ := h
  cases ho : s.is_open
  · simp only [stream.check_open, ho, stream.emit]
    exact ⟨he, hs, hh, harmless_released _ _ hr (by simp [harmless, unlocks]),
      harmless_taken _ _ ht (by simp [harmless, unlocks])⟩
  · simp only [stream.check_open, ho, stream.emit]
    exact ⟨he, hs, hh, harmless_released _ _ hr (by simp [harmless, unlocks]),
      harmless_taken _ _ ht (by simp [harmless, unlocks])⟩

theorem stream_held_by_check_ok (s : stream) (self : operation) (ec : error_code)
    (h : s.held_by self) : (s.check_ok ec).2.held_by self := by
  obtain ⟨he, hs, hh, hr, ht⟩ := h
  cases hf : ec.failed
  · simp only [stream.check_ok, hf]
    exact ⟨he, hs, hh, hr, ht⟩
  · simp only [stream.check_ok, hf]
    exact ⟨he, hs, hh, hr, ht⟩

theorem stream_lock_inv_write (s : stream) (self : operation) (h : s.held_by self) :
    (s.async_write self).lock_inv := by
  obtain ⟨he, hs, hh, hr, ht⟩ := h
  exact stream_lock_inv_writing _ s.trace _ self hr ht he (by simp [stream.async_write, hs]) hh
    rfl (by simp [harmless, unlocks])

theorem ping_op_call_resumed_lock_inv (self : operation) (pc : coro) (ec : error_code)
    (s : stream) (h : s.held_by self)
    (hpc : pc = .yield91 ∨ pc = .yield108 ∨ pc = .yield119) :
    (ping_op.call self pc ec s).2.lock_inv := by
  rcases hpc with rfl | rfl | rfl
  · exact ping_op_upcall_lock_inv self ec s h
  · have hc := stream_held_by_check_open s self h
    cases ho : s.is_open
    · simp only [ping_op.call, stream.check_open, ho] at hc ⊢
      exact ping_op_upcall_lock_inv self _ _ hc
    · simp only [ping_op.call, stream.check_open, ho] at hc ⊢
      exact stream_lock_inv_write _ self hc
  · exact ping_op_upcall_lock_inv self ec _ (stream_held_by_check_ok s self ec h)

theorem composed_op_call_resumed_lock_inv (self : operation) (pc : coro) (ec : error_code)
    (s : stream) (h : s.held_by self)
    (hpc : pc = .yield91 ∨ pc = .yield108 ∨ pc = .yield119) :
    (composed_op.call self pc ec s).2.lock_inv := by
  rcases hpc with rfl | rfl | rfl
  · exact composed_op_upcall_lock_inv self ec s h
  · have hc := stream_held_by_check_open s self h
    cases ho : s.is_open
    · simp only [composed_op.call, stream.check_open, ho] at hc ⊢
      exact composed_op_upcall_lock_inv self _ _ hc
    · simp only [composed_op.call, stream.check_open, ho] at hc ⊢
      exact stream_lock_inv_write _ self hc
  · exact composed_op_upcall_lock_inv self ec _ (stream_held_by_check_ok s self ec h)

theorem stream_lock_inv_free (s : stream) (h : s.lock_inv) (hh : s.wr_block_.holder = none) :
    s.executor = [] ∧ s.stream_ = [] := by
  constructor
  · rcases he : s.executor with _ | ⟨p, ps⟩
    · rfl
    · have := (h.posted p (by simp [he])).1
      simp [hh] at this
  · rcases he : s.stream_ with _ | ⟨p, ps⟩
    · rfl
    · have := h.writing p (by simp [he])
      simp [hh] at this

theorem stream_lock_inv_emplace (s : stream) (c : category) (self : operation)
    (h : s.lock_inv) (x : Nat) (hh : s.wr_block_.holder = some x) :
    ((s.try_lock self).2.emplace c self).lock_inv := by
  refine stream_lock_inv_frame s _ [.try_lock self.handler false, .emplace c self.handler] h
    ?_ ?_ ?_ ?_ (by simp [harmless, unlocks])
  · cases c <;> rfl
  · cases c <;> rfl
  · cases c <;> simp [stream.emplace, stream.set_paused, stream.emit, stream.try_lock,
      soft_mutex.try_lock, hh]
  · cases c <;> simp [stream.emplace, stream.set_paused, stream.emit, stream.try_lock,
      soft_mutex.try_lock, hh]

theorem stream_held_by_try_lock (s : stream) (self : operation) (h : s.lock_inv)
    (hh : s.wr_block_.holder = none) : (s.try_lock self).2.held_by self := by
  obtain ⟨he, hs⟩ := stream_lock_inv_free s h hh
  exact ⟨he, hs, by simp [stream.try_lock, soft_mutex.try_lock, hh],
    harmless_released _ _ h.released (by simp [harmless, unlocks]),
    harmless_taken _ _ h.taken (by simp [harmless, unlocks])⟩

theorem stream_lock_inv_post (s : stream) (self : operation) (ec : error_code)
    (h : s.held_by self) : (s.post self .yield91 ec).lock_inv := by
  obtain ⟨he, hs, hh, hr, ht⟩ := h
  exact stream_lock_inv_posted _ s.trace _ self .yield91 ec hr ht (by simp [stream.post, he])
    (Or.inl rfl) hs hh rfl (by simp [harmless, unlocks])

theorem ping_op_call_entry_lock_inv (self : operation) (ec : error_code) (s : stream)
    (h : s.lock_inv) : (ping_op.call self .entry ec s).2.lock_inv := by
  rcases hh : s.wr_block_.holder with _ | x
  · have ht := stream_held_by_try_lock s self h hh
    have hc := stream_held_by_check_open _ self ht
    have h1 : (s.try_lock self).1 = true := by simp [stream.try_lock, soft_mutex.try_lock, hh]
    cases ho : s.is_open
    · have h2 : ((s.try_lock self).2.check_open self).1 = false := by
        simp [stream.check_open, stream.try_lock, ho]
      simp only [ping_op.call, h1, h2]
      exact stream_lock_inv_post _ self _ hc
    · have h2 : ((s.try_lock self).2.check_open self).1 = true := by
        simp [stream.check_open, stream.try_lock, ho]
      simp only [ping_op.call, h1, h2]
      exact stream_lock_inv_write _ self hc
  · have h1 : (s.try_lock self).1 = false := by simp [stream.try_lock, soft_mutex.try_lock, hh]
    simp only [ping_op.call, h1]
    exact stream_lock_inv_emplace s .control self h x hh

theorem composed_op_call_entry_lock_inv (self : operation) (ec : error_code) (s : stream)
    (h : s.lock_inv) : (composed_op.call self .entry ec s).2.lock_inv := by
  rcases hh : s.wr_block_.holder with _ | x
  · have ht := stream_held_by_try_lock s self h hh
    have hc := stream_held_by_check_open _ self ht
    have h1 : (s.try_lock self).1 = true := by simp [stream.try_lock, soft_mutex.try_lock, hh]
    cases ho : s.is_open
    · have h2 : ((s.try_lock self).2.check_open self).1 = false := by
        simp [stream.check_open, stream.try_lock, ho]
      simp only [composed_op.call, h1, h2]
      exact stream_lock_inv_post _ self _ hc
    · have h2 : ((s.try_lock self).2.check_open self).1 = true := by
        simp [stream.check_open, stream.try_lock, ho]
      simp only [composed_op.call, h1, h2]
      exact stream_lock_inv_write _ self hc
  · have h1 : (s.try_lock self).1 = false := by simp [stream.try_lock, soft_mutex.try_lock, hh]
    simp only [composed_op.call, h1]
    exact stream_lock_inv_emplace s self.cat self h x hh

theorem operation_call_entry_lock_inv (self : operation) (ec : error_code) (s : stream)
    (h : s.lock_inv) : (self.call .entry ec s).2.lock_inv := by
  unfold operation.call
  cases self.cat
  · exact ping_op_call_entry_lock_inv self ec s h
  · exact composed_op_call_entry_lock_inv self ec s h
  · exact composed_op_call_entry_lock_inv self ec s h
  · exact composed_op_call_entry_lock_inv self ec s h

theorem operation_call_resumed_lock_inv (self : operation) (pc : coro) (ec : error_code)
    (s : stream) (h : s.held_by self)
    (hpc : pc = .yield91 ∨ pc = .yield108 ∨ pc = .yield119) :
    (self.call pc ec s).2.lock_inv := by
  unfold operation.call
  cases self.cat
  · exact ping_op_call_resumed_lock_inv self pc ec s h hpc
  · exact composed_op_call_resumed_lock_inv self pc ec s h hpc
  · exact composed_op_call_resumed_lock_inv self pc ec s h hpc
  · exact composed_op_call_resumed_lock_inv self pc ec s h hpc

theorem stream_lock_inv_run (s : stream) (h : s.lock_inv) (n : Nat)
    (p : operation × coro × error_code) (hp : s.executor[n]? = some p) :
    s.executor = [p] ∧ n = 0 ∧ s.stream_ = [] := by
  have h3 := h.single
  rcases he : s.executor with _ | ⟨q, qs⟩
  · simp [he] at hp
  · rw [he] at h3 hp
    have hqs : qs = [] := by
      cases qs with
      | nil => rfl
      | cons a as => simp at h3; omega
    subst hqs
    have hst : s.stream_ = [] := by
      rcases hst : s.stream_ with _ | ⟨a, as⟩
      · rfl
      · rw [hst] at h3; simp at h3
    cases n with
    | zero => simp at hp; subst hp; exact ⟨rfl, rfl, hst⟩
    | succ m => simp at hp

theorem stream_lock_inv_write_done (s : stream) (h : s.lock_inv) (n : Nat)
    (o : operation) (hp : s.stream_[n]? = some o) :
    s.stream_ = [o] ∧ n = 0 ∧ s.executor = [] := by
  have h3 := h.single
  rcases he : s.stream_ with _ | ⟨q, qs⟩
  · simp [he] at hp
  · rw [he] at h3 hp
    have hqs : qs = [] := by
      cases qs with
      | nil => rfl
      | cons a as => simp at h3; omega
    subst hqs
    have hst : s.executor = [] := by
      rcases hst : s.executor with _ | ⟨a, as⟩
      · rfl
      · rw [hst] at h3; simp at h3
    cases n with
    | zero => simp at hp; subst hp; exact ⟨rfl, rfl, hst⟩
    | succ m => simp at hp

theorem stream_step_lock_inv (s t : stream) (a : action) (h : s.lock_inv)
    (hst : s.step a = some t) : t.lock_inv := by
  cases a with
  | start o =>
    simp only [stream.step, Option.some.injEq] at hst
    subst hst
    exact operation_call_entry_lock_inv o _ s h
  | run n =>
    simp only [stream.step] at hst
    rcases hp : s.executor[n]? with _ | p
    · simp [hp] at hst
    · simp only [hp, Option.some.injEq] at hst
      subst hst
      obtain ⟨he, hn, hs⟩ := stream_lock_inv_run s h n p hp
      have hpp := h.posted p (by simp [he])
      subst hn
      refine operation_call_resumed_lock_inv p.1 p.2.1 p.2.2 _
        ⟨by simp [he], hs, hpp.1, h.released, h.taken⟩ ?_
      rcases hpp.2 with h1 | h1
      · exact Or.inl h1
      · exact Or.inr (Or.inl h1)
  | write_done n ec =>
    simp only [stream.step] at hst
    rcases hp : s.stream_[n]? with _ | o
    · simp [hp] at hst
    · simp only [hp, Option.some.injEq] at hst
      subst hst
      obtain ⟨hs, hn, he⟩ := stream_lock_inv_write_done s h n o hp
      have hpp := h.writing o (by simp [hs])
      subst hn
      exact operation_call_resumed_lock_inv o .yield119 ec _
        ⟨he, by simp [hs], hpp, h.released, h.taken⟩ (Or.inr (Or.inr rfl))
  | set_open b =>
    simp only [stream.step, Option.some.injEq] at hst
    subst hst
    exact ⟨h.posted, h.writing, h.single, h.released, h.taken⟩

theorem stream_steps_lock_inv (as : List action) (s t : stream) (h : s.lock_inv)
    (hst : s.steps as = some t) : t.lock_inv := by
  induction as generalizing s with
  | nil =>
    simp only [stream.steps, Option.some.injEq] at hst
    subst hst
    exact h
  | cons a as ih =>
    simp only [stream.steps] at hst
    rcases hs : s.step a with _ | u
    · simp [hs] at hst
    · simp only [hs] at hst
      exact ih u (stream_step_lock_inv s u a h hs) hst

theorem stream_reachable_lock_inv (s : stream) (h : s.reachable) : s.lock_inv := by
  obtain ⟨b, as, hs⟩ := h
  exact stream_steps_lock_inv as _ s (stream_lock_inv_idle b) hs

theorem sample_contended_reachable : sample_contended.reachable :=
  ⟨true, [.start sample_ping, .start sample_write, .start sample_close], rfl⟩

theorem sample_posted_reachable : sample_posted.reachable :=
  ⟨false, [.start sample_ping], rfl⟩

theorem sample_released_reachable : sample_released.reachable :=
  ⟨false, [.start sample_ping, .run 0], rfl⟩

theorem ping_op_exec_paths (self : operation) (env : List (error_code × stream))
    (h : 4 ≤ env.length) :
    ∃ pre mid held ec, drain_events mid ∧
      ping_op.exec self .entry .success env =
        (.complete, pre ++ .unlock self.handler held :: mid ++ [.invoke self.handler ec]) ∧
      ((pre = [.try_lock self.handler true, .check_open self.handler true,
          .async_write self.handler self.fb] ∧ ∃ e ∈ env, ec = e.1) ∨
       (pre = [.try_lock self.handler true, .check_open self.handler false,
          .post self.handler] ∧ ec = .operation_aborted) ∨
       (∃ f, pre = [.try_lock self.handler false, .emplace .control self.handler,
          .lock self.handler f, .post self.handler, .check_open self.handler true,
          .async_write self.handler self.fb] ∧ ∃ e ∈ env, ec = e.1) ∨
       (∃ f, pre = [.try_lock self.handler false, .emplace .control self.handler,
          .lock self.handler f, .post self.handler, .check_open self.handler false] ∧
          ec = .operation_aborted)) := by
  obtain ⟨e1, e2, e3, e4, rest, rfl⟩ :
      ∃ e1 e2 e3 e4 rest, env = e1 :: e2 :: e3 :: e4 :: rest := by
    match env, h with
    | e1 :: e2 :: e3 :: e4 :: rest, _ => exact ⟨e1, e2, e3, e4, rest, rfl⟩
  by_cases h1 : e1.2.wr_block_.holder = none
  · cases ho : e1.2.is_open
    · obtain ⟨mid, hmid, hex⟩ := ping_op_exec_sync_closed self e1 e2 (e3 :: e4 :: rest) h1 ho
      exact ⟨[.try_lock self.handler true, .check_open self.handler false,
        .post self.handler], mid, e2.2.wr_block_.is_locked self.id, .operation_aborted, hmid,
        by rw [hex]; simp, Or.inr (Or.inl ⟨rfl, rfl⟩)⟩
    · obtain ⟨mid, hmid, hex⟩ := ping_op_exec_sync_open self e1 e2 (e3 :: e4 :: rest) h1 ho
      exact ⟨[.try_lock self.handler true, .check_open self.handler true,
        .async_write self.handler self.fb], mid, e2.2.wr_block_.is_locked self.id, e2.1, hmid,
        by rw [hex]; simp, Or.inl ⟨rfl, e2, by simp, rfl⟩⟩
  · cases ho : e3.2.is_open
    · obtain ⟨mid, hmid, hex⟩ := ping_op_exec_queued_closed self e1 e2 e3 (e4 :: rest) h1 ho
      exact ⟨[.try_lock self.handler false, .emplace .control self.handler,
        .lock self.handler (e2.2.wr_block_.holder == none), .post self.handler,
        .check_open self.handler false], mid, e3.2.wr_block_.is_locked self.id,
        .operation_aborted, hmid, by rw [hex]; simp,
        Or.inr (Or.inr (Or.inr ⟨_, rfl, rfl⟩))⟩
    · obtain ⟨mid, hmid, hex⟩ := ping_op_exec_queued_open self e1 e2 e3 e4 rest h1 ho
      exact ⟨[.try_lock self.handler false, .emplace .control self.handler,
        .lock self.handler (e2.2.wr_block_.holder == none), .post self.handler,
        .check_open self.handler true, .async_write self.handler self.fb], mid,
        e4.2.wr_block_.is_locked self.id, e4.1, hmid, by rw [hex]; simp,
        Or.inr (Or.inr (Or.inl ⟨_, rfl, e4, by simp, rfl⟩))⟩

/-! ## Reading the trace of a run -/

theorem completions_nil : completions [] = [] := rfl

theorem completions_cons (e : event) (t : List event) :
    completions (e :: t) =
      (match e with
        | .invoke h ec => [(h, ec)]
        | _ => []) ++ completions t := by
  cases e <;> simp [completions, List.filterMap_cons]

theorem unlocks_nil : unlocks [] = [] := rfl

theorem unlocks_cons (e : event) (t : List event) :
    unlocks (e :: t) =
      (match e with
        | .unlock h held => [(h, held)]
        | _ => []) ++ unlocks t := by
  cases e <;> simp [unlocks, List.filterMap_cons]

theorem writes_nil : writes [] = [] := rfl

theorem writes_cons (e : event) (t : List event) :
    writes (e :: t) =
      (match e with
        | .async_write h fb => [(h, fb)]
        | _ => []) ++ writes t := by
  cases e <;> simp [writes, List.filterMap_cons]

theorem drain_events_completions (mid : List event) (h : drain_events mid) :
    completions mid = [] ∧ unlocks mid = [] ∧ writes mid = [] := by
  rcases h with rfl | ⟨w, rfl⟩ <;> simp [completions, unlocks, writes]

theorem completions_append (t u : List event) :
    completions (t ++ u) = completions t ++ completions u := by
  simp [completions, List.filterMap_append]

theorem writes_append (t u : List event) : writes (t ++ u) = writes t ++ writes u := by
  simp [writes, List.filterMap_append]

theorem ping_op_upcall_stream_ (self : operation) (ec : error_code) (s : stream) :
    (ping_op.upcall self ec s).2.stream_ = s.stream_ ∧
    (ping_op.upcall self ec s).2.is_open = s.is_open := by
  rcases hc : s.paused_close_ with _ | ⟨c, cs⟩
  · rcases hr : s.paused_rd_ with _ | ⟨r, rs⟩
    · rcases hw : s.paused_wr_ with _ | ⟨w, ws⟩
      · rw [ping_op_upcall_none self ec s hc hr hw]; exact ⟨rfl, rfl⟩
      · rw [ping_op_upcall_wr self ec s w ws hc hr hw]; exact ⟨rfl, rfl⟩
    · rw [ping_op_upcall_rd self ec s r rs hc hr]; exact ⟨rfl, rfl⟩
  · rw [ping_op_upcall_close self ec s c cs hc]; exact ⟨rfl, rfl⟩

theorem sample_ping_resumed_reachable : sample_ping_resumed.reachable :=
  ⟨true, [.start sample_write, .start sample_ping, .write_done 0 .success], rfl⟩

end websocket

namespace http

/-! ## Lemmas on the header parameter tokenizer -/

theorem range_length (s : List Nat) (a e : Nat) (h : e ≤ s.length) :
    (range s a e).length = e - a := by
  simp [range]
  omega

theorem cursor_start (s : List Nat) (a e : Nat) (h1 : a ≤ e) (h2 : e ≤ s.length) :
    cursor s e a (range s a e) :=
  ⟨h1, h2, rfl⟩

theorem cursor_length (s : List Nat) (e a : Nat) (l : List Nat) (h : cursor s e a l) :
    a + l.length = e := by
  obtain ⟨h1, h2, h3⟩ := h
  have := range_length s a e h2
  rw [h3] at this
  omega

theorem cursor_nil (s : List Nat) (e a : Nat) (h : cursor s e a []) : a = e := by
  have := cursor_length s e a [] h
  simpa using this

theorem cursor_cons (s : List Nat) (e a c : Nat) (t : List Nat)
    (h : cursor s e a (c :: t)) :
    a ≠ e ∧ a < e ∧ deref s a = c ∧ cursor s e (a + 1) t := by
  have hl := cursor_length s e a _ h
  obtain ⟨h1, h2, h3⟩ := h
  simp only [List.length_cons] at hl
  have ha : a < s.length := by omega
  have hd : s.drop a = s[a] :: s.drop (a + 1) := List.drop_eq_getElem_cons ha
  have he : e - a = (e - (a + 1)) + 1 := by omega
  rw [range, hd, he, List.take_succ_cons] at h3
  simp only [List.cons.injEq] at h3
  refine ⟨by omega, by omega, ?_, by omega, h2, h3.2⟩
  rw [deref, List.getD_eq_getElem?_getD, List.getElem?_eq_getElem ha]
  exact h3.1

theorem cursor_append (s : List Nat) (e : Nat) (pre post : List Nat) :
    ∀ a, cursor s e a (pre ++ post) → cursor s e (a + pre.length) post := by
  induction pre with
  | nil => intro a h; simpa using h
  | cons c pre ih =>
    intro a h
    have := (cursor_cons s e a c (pre ++ post) h).2.2.2
    have := ih (a + 1) this
    simpa [Nat.add_assoc, Nat.add_comm 1] using this

theorem cursor_str (s : List Nat) (e a : Nat) (pre post : List Nat)
    (h : cursor s e a (pre ++ post)) :
    string_ref.str ⟨a, pre.length⟩ s = pre := by
  obtain ⟨h1, h2, h3⟩ := h
  have : ((s.drop a).take (e - a)).take pre.length = pre := by
    rw [← range, h3]; simp
  rw [List.take_take] at this
  have hl := range_length s a e h2
  rw [h3] at hl
  simp only [List.length_append] at hl
  rw [string_ref.str]
  rw [Nat.min_eq_left (by omega)] at this
  exact this

theorem skip_ows_end (s : List Nat) (a e : Nat) (h : e ≤ a) : skip_ows s a e = a := by
  have : e - a = 0 := by omega
  simp [skip_ows, this, skip_ows_loop]

theorem skip_ows_step (s : List Nat) (a e : Nat) (h : a < e) :
    skip_ows s a e =
      if deref s a ≠ 32 ∧ deref s a ≠ 9 then a else skip_ows s (a + 1) e := by
  have he : e - a = (e - (a + 1)) + 1 := by omega
  have hne : a ≠ e := by omega
  simp only [skip_ows]
  rw [he, skip_ows_loop]
  simp [hne]

theorem skip_ows_cursor (s : List Nat) (e : Nat) (o t : List Nat)
    (ho : grammar_ows o) (ht : ∀ c ∈ t.head?, ¬ (c = 32 ∨ c = 9)) :
    ∀ a, cursor s e a (o ++ t) → skip_ows s a e = a + o.length := by
  induction o with
  | nil =>
    intro a h
    cases t with
    | nil => simp [skip_ows_end s a e (by have := cursor_nil s e a h; omega)]
    | cons c t =>
      obtain ⟨-, hlt, hd, -⟩ := cursor_cons s e a c t h
      have := ht c (by simp)
      rw [skip_ows_step s a e hlt, hd]
      simp only [not_or] at this
      simp [this]
  | cons c o ih =>
    intro a h
    obtain ⟨-, hlt, hd, hc⟩ := cursor_cons s e a c (o ++ t) h
    have hows := ho c (by simp)
    rw [skip_ows_step s a e hlt, hd, ih (fun x hx => ho x (by simp [hx])) (a + 1) hc]
    have : ¬ (c ≠ 32 ∧ c ≠ 9) := by omega
    simp [this]
    omega

theorem name_loop_step (s : List Nat) (a e : Nat) (h : a < e) :
    param_iter.name_loop s e (e - a) a =
      if a + 1 = e then none
      else if !is_tchar (deref s (a + 1)) then some (a + 1)
      else param_iter.name_loop s e (e - (a + 1)) (a + 1) := by
  have he : e - a = (e - (a + 1)) + 1 := by omega
  rw [he, param_iter.name_loop]

theorem name_loop_cursor (s : List Nat) (e : Nat) (n t : List Nat)
    (hn : ∀ x ∈ n, is_tchar x = true) (ht : ∀ d ∈ t.head?, is_tchar d = false) :
    ∀ a c, cursor s e a (c :: (n ++ t)) →
      param_iter.name_loop s e (e - a) a =
        if t = [] then none else some (a + 1 + n.length) := by
  induction n with
  | nil =>
    intro a c h
    obtain ⟨-, hlt, -, hc⟩ := cursor_cons s e a c _ h
    rw [name_loop_step s a e hlt]
    cases t with
    | nil =>
      have := cursor_nil s e (a + 1) hc
      simp [this]
    | cons d t =>
      obtain ⟨hne, -, hd, -⟩ := cursor_cons s e (a + 1) d t hc
      have := ht d (by simp)
      simp [hne, hd, this]
  | cons x n ih =>
    intro a c h
    obtain ⟨-, hlt, -, hc⟩ := cursor_cons s e a c _ h
    obtain ⟨hne, -, hd, -⟩ := cursor_cons s e (a + 1) x (n ++ t) hc
    rw [name_loop_step s a e hlt, ih (fun y hy => hn y (by simp [hy])) (a + 1) x hc]
    have := hn x (by simp)
    simp only [hne, hd, this, if_false, Bool.not_true, Bool.false_eq_true, List.length_cons]
    have : a + 1 + 1 + n.length = a + 1 + (n.length + 1) := by omega
    rw [this]

theorem token_loop_step (s : List Nat) (a e : Nat) (h : a < e) :
    param_iter.token_loop s e (e - a) a =
      if a + 1 = e then a + 1
      else if !is_tchar (deref s (a + 1)) then a + 1
      else param_iter.token_loop s e (e - (a + 1)) (a + 1) := by
  have he : e - a = (e - (a + 1)) + 1 := by omega
  rw [he, param_iter.token_loop]

theorem token_loop_cursor (s : List Nat) (e : Nat) (n t : List Nat)
    (hn : ∀ x ∈ n, is_tchar x = true) (ht : ∀ d ∈ t.head?, is_tchar d = false) :
    ∀ a c, cursor s e a (c :: (n ++ t)) →
      param_iter.token_loop s e (e - a) a = a + 1 + n.length := by
  induction n with
  | nil =>
    intro a c h
    obtain ⟨-, hlt, -, hc⟩ := cursor_cons s e a c _ h
    rw [token_loop_step s a e hlt]
    cases t with
    | nil =>
      have := cursor_nil s e (a + 1) hc
      simp [this]
    | cons d t =>
      obtain ⟨hne, -, hd, -⟩ := cursor_cons s e (a + 1) d t hc
      have := ht d (by simp)
      simp [hne, hd, this]
  | cons x n ih =>
    intro a c h
    obtain ⟨-, hlt, -, hc⟩ := cursor_cons s e a c _ h
    obtain ⟨hne, -, hd, -⟩ := cursor_cons s e (a + 1) x (n ++ t) hc
    rw [token_loop_step s a e hlt, ih (fun y hy => hn y (by simp [hy])) (a + 1) x hc]
    have := hn x (by simp)
    simp [hne, hd, this]
    omega

set_option maxRecDepth 100000 in
theorem is_tchar_iff (c : Nat) (h : c < 256) : is_tchar c = true ↔ grammar_tchar c := by
  unfold grammar_tchar
  revert c
  decide

set_option maxRecDepth 100000 in
theorem is_qdchar_iff (c : Nat) (h : c < 256) : is_qdchar c = true ↔ grammar_qdtext c := by
  unfold grammar_qdtext
  revert c
  decide

set_option maxRecDepth 100000 in
theorem is_qpchar_iff (c : Nat) (h : c < 256) : is_qpchar c = true ↔ grammar_qpchar c := by
  unfold grammar_qpchar
  revert c
  decide

theorem grammar_qdtext_octet (c : Nat) (h : grammar_qdtext c) : c < 256 ∧ c ≠ 34 := by
  unfold grammar_qdtext at h
  omega

theorem grammar_qpchar_octet (c : Nat) (h : grammar_qpchar c) : c < 256 := by
  unfold grammar_qpchar at h
  omega

theorem grammar_tchar_octet (c : Nat) (h : grammar_tchar c) :
    c < 256 ∧ c ≠ 32 ∧ c ≠ 9 ∧ c ≠ 34 ∧ c ≠ 59 ∧ c ≠ 61 := by
  unfold grammar_tchar at h
  simp only [List.mem_cons, List.mem_singleton, List.not_mem_nil, or_false] at h
  omega

theorem quoted_loop_cursor (s : List Nat) (e : Nat) (t body : List Nat)
    (hb : grammar_quoted_body body) :
    ∀ a fuel, cursor s e a (body ++ 34 :: t) → e - a ≤ fuel →
      param_iter.quoted_loop s e fuel a = some (a + body.length + 1) := by
  induction hb with
  | nil =>
    intro a fuel h hf
    obtain ⟨hne, hlt, hd, -⟩ := cursor_cons s e a 34 t h
    obtain ⟨k, rfl⟩ : ∃ k, fuel = k + 1 := ⟨fuel - 1, by omega⟩
    simp [param_iter.quoted_loop, hne, hd]
  | qdtext c r hc _ ih =>
    intro a fuel h hf
    obtain ⟨hne, hlt, hd, hcur⟩ := cursor_cons s e a c _ h
    obtain ⟨k, rfl⟩ : ∃ k, fuel = k + 1 := ⟨fuel - 1, by omega⟩
    obtain ⟨ho, h34⟩ := grammar_qdtext_octet c hc
    have hq := (is_qdchar_iff c ho).mpr hc
    rw [param_iter.quoted_loop]
    simp only [hne, hd, h34, hq, if_false, if_true]
    rw [ih (a + 1) k hcur (by omega)]
    simp only [List.length_cons]
    congr 1
    omega
  | quoted_pair c r hc _ ih =>
    intro a fuel h hf
    obtain ⟨hne, hlt, hd, hcur⟩ := cursor_cons s e a 92 _ h
    obtain ⟨hne2, hlt2, hd2, hcur2⟩ := cursor_cons s e (a + 1) c _ hcur
    obtain ⟨k, rfl⟩ : ∃ k, fuel = k + 1 := ⟨fuel - 1, by omega⟩
    have ho := grammar_qpchar_octet c hc
    have hq := (is_qpchar_iff c ho).mpr hc
    have h92 : is_qdchar 92 = false := by decide
    rw [param_iter.quoted_loop]
    simp only [hne, hd, hd2, hne2, hq, h92, if_false, if_true, ne_eq, not_true_eq_false,
      Bool.not_true, Bool.false_eq_true, Nat.reduceEqDiff]
    rw [ih (a + 1 + 1) k hcur2 (by omega)]
    simp only [List.length_cons]
    congr 1
    omega

theorem cursor_cases (s : List Nat) (e a : Nat) (l : List Nat) (h : cursor s e a l)
    (hne : a ≠ e) : ∃ c t, l = c :: t := by
  cases l with
  | nil => exact absurd (cursor_nil s e a h) hne
  | cons c t => exact ⟨c, t, rfl⟩

theorem quoted_loop_sound (s : List Nat) (e : Nat) :
    ∀ fuel a l r, cursor s e a l → octets l →
      param_iter.quoted_loop s e fuel a = some r →
      ∃ body t, l = body ++ 34 :: t ∧ grammar_quoted_body body ∧ r = a + body.length + 1 := by
  intro fuel
  induction fuel with
  | zero => intro a l r _ _ h; simp [param_iter.quoted_loop] at h
  | succ k ih =>
    intro a l r hcur ho h
    rw [param_iter.quoted_loop] at h
    by_cases hae : a = e
    · simp [hae] at h
    · obtain ⟨c, t, rfl⟩ := cursor_cases s e a l hcur hae
      obtain ⟨-, -, hd, hcur1⟩ := cursor_cons s e a c t hcur
      have hc256 : c < 256 := ho c (by simp)
      have hot : octets t := fun x hx => ho x (by simp [hx])
      simp only [hae, hd, if_false] at h
      by_cases h34 : c = 34
      · simp only [h34, if_true, Option.some.injEq] at h
        exact ⟨[], t, by simp [h34], .nil, by simp [← h]⟩
      · simp only [h34, if_false] at h
        by_cases hq : is_qdchar c = true
        · simp only [hq, if_true] at h
          obtain ⟨body, t', rfl, hb, hr⟩ := ih (a + 1) t r hcur1 hot h
          exact ⟨c :: body, t', by simp, .qdtext c body ((is_qdchar_iff c hc256).mp hq) hb,
            by simp [hr]; omega⟩
        · simp only [hq, if_false] at h
          by_cases h92 : c = 92
          · subst h92
            by_cases hae1 : a + 1 = e
            · simp [hae1] at h
            · obtain ⟨d, t2, rfl⟩ := cursor_cases s e (a + 1) t hcur1 hae1
              obtain ⟨-, -, hd2, hcur2⟩ := cursor_cons s e (a + 1) d t2 hcur1
              have hd256 : d < 256 := hot d (by simp)
              simp only [hae1, hd2, if_false, ne_eq, not_true_eq_false] at h
              by_cases hqp : is_qpchar d = true
              · simp only [hqp, Bool.not_true, Bool.false_eq_true, if_false] at h
                obtain ⟨body, t', rfl, hb, hr⟩ :=
                  ih (a + 1 + 1) t2 r hcur2 (fun x hx => hot x (by simp [hx])) h
                exact ⟨92 :: d :: body, t', by simp,
                  .quoted_pair d body ((is_qpchar_iff d hd256).mp hqp) hb, by simp [hr]; omega⟩
              · simp [hqp] at h
          · simp [h92] at h

theorem increment_token (s : List Nat) (p : param_iter) (b q p1 e0 p2 : Nat)
    (hb : skip_ows s p.it p.end_ = b) (h1 : b ≠ p.end_) (h2 : deref s b = 59)
    (hq : skip_ows s (b + 1) p.end_ = q) (h3 : q ≠ p.end_)
    (h4 : is_tchar (deref s q) = true)
    (h5 : param_iter.name_loop s p.end_ (p.end_ - q) q = some p1)
    (h6 : skip_ows s p1 p.end_ = e0) (h7 : e0 ≠ p.end_) (h8 : deref s e0 = 61)
    (h9 : skip_ows s (e0 + 1) p.end_ = p2) (h10 : p2 ≠ p.end_)
    (h11 : deref s p2 ≠ 34) (h12 : is_tchar (deref s p2) = true) :
    p.increment s =
      { it := param_iter.token_loop s p.end_ (p.end_ - p2) p2, begin := b, end_ := p.end_,
        v := (⟨q, p1 - q⟩,
          ⟨p2, param_iter.token_loop s p.end_ (p.end_ - p2) p2 - p2⟩) } := by
  simp only [param_iter.increment, hb, h1, h2, hq, h3, h4, h5, h6, h7, h8, h9, h10, h11, h12,
    if_false, ne_eq, not_true_eq_false, Bool.not_true, Bool.false_eq_true, if_true]

theorem increment_quoted (s : List Nat) (p : param_iter) (b q p1 e0 p2 r : Nat)
    (hb : skip_ows s p.it p.end_ = b) (h1 : b ≠ p.end_) (h2 : deref s b = 59)
    (hq : skip_ows s (b + 1) p.end_ = q) (h3 : q ≠ p.end_)
    (h4 : is_tchar (deref s q) = true)
    (h5 : param_iter.name_loop s p.end_ (p.end_ - q) q = some p1)
    (h6 : skip_ows s p1 p.end_ = e0) (h7 : e0 ≠ p.end_) (h8 : deref s e0 = 61)
    (h9 : skip_ows s (e0 + 1) p.end_ = p2) (h10 : p2 ≠ p.end_)
    (h11 : deref s p2 = 34)
    (h12 : param_iter.quoted_loop s p.end_ (p.end_ - (p2 + 1)) (p2 + 1) = some r) :
    p.increment s =
      { it := r, begin := b, end_ := p.end_, v := (⟨q, p1 - q⟩, ⟨p2, r - p2⟩) } := by
  simp only [param_iter.increment, hb, h1, h2, hq, h3, h4, h5, h6, h7, h8, h9, h10, h11, h12,
    if_false, ne_eq, not_true_eq_false, Bool.not_true, Bool.false_eq_true, if_true]

theorem cursor_mem (s : List Nat) (e a : Nat) (l : List Nat) (h : cursor s e a l) :
    ∀ c ∈ l, c ∈ s := by
  intro c hc
  rw [← h.2.2, range] at hc
  exact List.mem_of_mem_drop (List.mem_of_mem_take hc)

theorem is_tchar_of_grammar (c : Nat) (h : grammar_tchar c) : is_tchar c = true :=
  (is_tchar_iff c (grammar_tchar_octet c h).1).mpr h

theorem skip_ows_split (s : List Nat) (e a : Nat) (l : List Nat) (h : cursor s e a l) :
    ∃ o t, l = o ++ t ∧ grammar_ows o ∧ skip_ows s a e = a + o.length ∧
      cursor s e (a + o.length) t ∧ ∀ c ∈ t.head?, ¬ (c = 32 ∨ c = 9) := by
  have hsplit : l = l.takeWhile (fun c => decide (c = 32 ∨ c = 9)) ++
      l.dropWhile (fun c => decide (c = 32 ∨ c = 9)) := by simp
  have ho : grammar_ows (l.takeWhile (fun c => decide (c = 32 ∨ c = 9))) := by
    intro c hc
    simpa using List.mem_takeWhile_imp hc
  have ht : ∀ c ∈ (l.dropWhile (fun c => decide (c = 32 ∨ c = 9))).head?,
      ¬ (c = 32 ∨ c = 9) := by
    intro c hc
    have := List.head?_dropWhile_not (fun c => decide (c = 32 ∨ c = 9)) l
    rw [Option.mem_def] at hc
    rw [hc] at this
    simpa using this
  rw [hsplit] at h
  exact ⟨_, _, hsplit, ho, skip_ows_cursor s e _ _ ho ht a h, cursor_append s e _ _ a h, ht⟩

theorem tchar_split (l : List Nat) :
    ∃ n t, l = n ++ t ∧ (∀ x ∈ n, is_tchar x = true) ∧ ∀ d ∈ t.head?, is_tchar d = false := by
  refine ⟨l.takeWhile is_tchar, l.dropWhile is_tchar, by simp,
    fun x hx => List.mem_takeWhile_imp hx, ?_⟩
  intro d hd
  have := List.head?_dropWhile_not is_tchar l
  rw [Option.mem_def] at hd
  rw [hd] at this
  simpa using this

theorem increment_cases (s : List Nat) (p : param_iter) :
    p.increment s =
      { it := skip_ows s p.it p.end_, begin := skip_ows s p.it p.end_, end_ := p.end_,
        v := (p.v.1.clear, p.v.2.clear) } ∨
    ∃ b q p1 e0 p2 r, skip_ows s p.it p.end_ = b ∧ b ≠ p.end_ ∧ deref s b = 59 ∧
      skip_ows s (b + 1) p.end_ = q ∧ q ≠ p.end_ ∧ is_tchar (deref s q) = true ∧
      param_iter.name_loop s p.end_ (p.end_ - q) q = some p1 ∧
      skip_ows s p1 p.end_ = e0 ∧ e0 ≠ p.end_ ∧ deref s e0 = 61 ∧
      skip_ows s (e0 + 1) p.end_ = p2 ∧ p2 ≠ p.end_ ∧
      ((deref s p2 = 34 ∧
          param_iter.quoted_loop s p.end_ (p.end_ - (p2 + 1)) (p2 + 1) = some r) ∨
        (deref s p2 ≠ 34 ∧ is_tchar (deref s p2) = true ∧
          param_iter.token_loop s p.end_ (p.end_ - p2) p2 = r)) ∧
      p.increment s =
        { it := r, begin := b, end_ := p.end_, v := (⟨q, p1 - q⟩, ⟨p2, r - p2⟩) } := by
  by_cases h1 : skip_ows s p.it p.end_ = p.end_
  · left; simp [param_iter.increment, h1]
  by_cases h2 : deref s (skip_ows s p.it p.end_) = 59
  swap
  · left; simp [param_iter.increment, h1, h2]
  by_cases h3 : skip_ows s (skip_ows s p.it p.end_ + 1) p.end_ = p.end_
  · left; simp [param_iter.increment, h1, h2, h3]
  by_cases h4 : is_tchar (deref s (skip_ows s (skip_ows s p.it p.end_ + 1) p.end_)) = true
  swap
  · left; simp [param_iter.increment, h1, h2, h3, h4]
  rcases h5 : param_iter.name_loop s p.end_
      (p.end_ - skip_ows s (skip_ows s p.it p.end_ + 1) p.end_)
      (skip_ows s (skip_ows s p.it p.end_ + 1) p.end_) with _ | p1
  · left; simp [param_iter.increment, h1, h2, h3, h4, h5]
  by_cases h7 : skip_ows s p1 p.end_ = p.end_
  · left; simp [param_iter.increment, h1, h2, h3, h4, h5, h7]
  by_cases h8 : deref s (skip_ows s p1 p.end_) = 61
  swap
  · left; simp [param_iter.increment, h1, h2, h3, h4, h5, h7, h8]
  by_cases h10 : skip_ows s (skip_ows s p1 p.end_ + 1) p.end_ = p.end_
  · left; simp [param_iter.increment, h1, h2, h3, h4, h5, h7, h8, h10]
  by_cases h11 : deref s (skip_ows s (skip_ows s p1 p.end_ + 1) p.end_) = 34
  · rcases h12 : param_iter.quoted_loop s p.end_
        (p.end_ - (skip_ows s (skip_ows s p1 p.end_ + 1) p.end_ + 1))
        (skip_ows s (skip_ows s p1 p.end_ + 1) p.end_ + 1) with _ | r
    · left; simp [param_iter.increment, h1, h2, h3, h4, h5, h7, h8, h10, h11, h12]
    · right
      exact ⟨_, _, p1, _, _, r, rfl, h1, h2, rfl, h3, h4, h5, rfl, h7, h8, rfl, h10,
        Or.inl ⟨h11, h12⟩,
        increment_quoted s p _ _ p1 _ _ r rfl h1 h2 rfl h3 h4 h5 rfl h7 h8 rfl h10 h11 h12⟩
  · by_cases h12 : is_tchar (deref s (skip_ows s (skip_ows s p1 p.end_ + 1) p.end_)) = true
    swap
    · left; simp [param_iter.increment, h1, h2, h3, h4, h5, h7, h8, h10, h11, h12]
    · right
      exact ⟨_, _, p1, _, _, _, rfl, h1, h2, rfl, h3, h4, h5, rfl, h7, h8, rfl, h10,
        Or.inr ⟨h11, h12, rfl⟩,
        increment_token s p _ _ p1 _ _ rfl h1 h2 rfl h3 h4 h5 rfl h7 h8 rfl h10 h11 h12⟩

theorem not_tchar_after_name (o t : List Nat) (ho : grammar_ows o) :
    ∀ d ∈ (o ++ 61 :: t).head?, is_tchar d = false := by
  intro d hd
  cases o with
  | nil =>
    simp only [List.nil_append, List.head?_cons, Option.mem_def, Option.some.injEq] at hd
    rw [← hd]
    decide
  | cons x o =>
    simp only [List.cons_append, List.head?_cons, Option.mem_def, Option.some.injEq] at hd
    rw [← hd]
    rcases ho x (by simp) with h | h <;> rw [h] <;> decide

theorem not_tchar_of_octet (c : Nat) (h : c < 256) (hn : ¬ grammar_tchar c) :
    is_tchar c = false := by
  cases hc : is_tchar c
  · rfl
  · exact absurd ((is_tchar_iff c h).mp hc) hn

theorem increment_complete (s : List Nat) (p : param_iter) (ho : octets s)
    (h1 : p.it ≤ p.end_) (h2 : p.end_ ≤ s.length) (name value rest : List Nat)
    (hg : grammar_param (range s p.it p.end_) name value rest) :
    (p.increment s).begin < (p.increment s).it ∧
    (p.increment s).it = p.end_ - rest.length ∧
    (p.increment s).v.1.str s = name ∧ (p.increment s).v.2.str s = value := by
  obtain ⟨o0, o1, o2, o3, ho0, ho1, ho2, ho3, ⟨hne, hname⟩, hval, hinp⟩ := hg
  obtain ⟨c, n, rfl⟩ : ∃ c n, name = c :: n := by
    cases name with
    | nil => exact absurd rfl hne
    | cons c n => exact ⟨c, n, rfl⟩
  have hc0 : cursor s p.end_ p.it _ := ⟨h1, h2, hinp⟩
  have hct := grammar_tchar_octet c (hname c (by simp))
  -- leading white space and the semicolon
  have hb := skip_ows_cursor s p.end_ o0 _ ho0 (by simp) p.it hc0
  obtain ⟨hb1, -, hb2, hc1⟩ := cursor_cons s p.end_ _ 59 _ (cursor_append s p.end_ o0 _ _ hc0)
  -- white space and the name
  have hq := skip_ows_cursor s p.end_ o1 _ ho1
    (by simp only [List.cons_append, List.head?_cons, Option.mem_def, Option.some.injEq]
        rintro x rfl; omega) _ hc1
  have hc2 := cursor_append s p.end_ o1 _ _ hc1
  obtain ⟨hq1, -, hq2, -⟩ := cursor_cons s p.end_ _ c _ hc2
  have hn : ∀ x ∈ n, is_tchar x = true :=
    fun x hx => is_tchar_of_grammar x (hname x (by simp [hx]))
  have h5 := name_loop_cursor s p.end_ n _ hn (not_tchar_after_name o2 _ ho2) _ c hc2
  rw [if_neg (by simp)] at h5
  have hc3 := cursor_append s p.end_ (c :: n) _ _ hc2
  have hstr1 := cursor_str s p.end_ _ (c :: n) _ hc2
  have hp1 : p.it + o0.length + 1 + o1.length + (c :: n).length =
      p.it + o0.length + 1 + o1.length + 1 + n.length := by
    simp only [List.length_cons]; omega
  rw [hp1] at hc3
  -- white space and the equals sign
  have he0 := skip_ows_cursor s p.end_ o2 _ ho2 (by simp) _ hc3
  obtain ⟨he1, -, he2, hc4⟩ :=
    cursor_cons s p.end_ _ 61 _ (cursor_append s p.end_ o2 _ _ hc3)
  -- white space and the value
  have hvh : ∀ x ∈ (value ++ rest).head?, ¬ (x = 32 ∨ x = 9) := by
    rcases hval with ⟨⟨hvne, hv⟩, -⟩ | ⟨body, -, rfl⟩
    · cases value with
      | nil => exact absurd rfl hvne
      | cons d v =>
        simp only [List.cons_append, List.head?_cons, Option.mem_def, Option.some.injEq]
        rintro x rfl
        have := grammar_tchar_octet d (hv d (by simp))
        omega
    · simp
  have hp2 := skip_ows_cursor s p.end_ o3 _ ho3 hvh _ hc4
  have hc5 := cursor_append s p.end_ o3 _ _ hc4
  have hlen := cursor_length s p.end_ _ _ hc5
  have hstr2 := cursor_str s p.end_ _ value rest hc5
  simp only [List.length_cons, List.length_append] at hstr1 hlen
  rcases hval with ⟨⟨hvne, hv⟩, hrest⟩ | ⟨body, hbody, rfl⟩
  · obtain ⟨d, v, rfl⟩ : ∃ d v, value = d :: v := by
      cases value with
      | nil => exact absurd rfl hvne
      | cons d v => exact ⟨d, v, rfl⟩
    have hdt := grammar_tchar_octet d (hv d (by simp))
    obtain ⟨hp21, -, hp22, -⟩ := cursor_cons s p.end_ _ d _ hc5
    have hvt : ∀ x ∈ v, is_tchar x = true :=
      fun x hx => is_tchar_of_grammar x (hv x (by simp [hx]))
    have hrt : ∀ x ∈ rest.head?, is_tchar x = false := by
      intro x hx
      refine not_tchar_of_octet x ?_ (hrest x hx)
      rw [Option.mem_def] at hx
      exact ho x (cursor_mem s p.end_ _ _ hc5 x
        (List.mem_append_right _ (List.mem_of_mem_head? hx)))
    have h12 := token_loop_cursor s p.end_ v rest hvt hrt _ d hc5
    rw [increment_token s p _ _ _ _ _ hb hb1 hb2 hq hq1
      (by rw [hq2]; exact is_tchar_of_grammar c (hname c (by simp))) h5 he0 he1 he2 hp2 hp21
      (by rw [hp22]; exact hdt.2.2.2.1)
      (by rw [hp22]; exact is_tchar_of_grammar d (hv d (by simp))), h12]
    simp only [List.length_cons, List.length_append] at hlen hstr2 ⊢
    refine ⟨by omega, by omega, ?_, ?_⟩
    · rw [← hstr1]; congr 2; omega
    · rw [← hstr2]; congr 2; omega
  · obtain ⟨hp21, -, hp22, hc6⟩ := cursor_cons s p.end_ _ 34 _ hc5
    have h12 := quoted_loop_cursor s p.end_ rest body hbody _ _
      (by simpa using hc6) (Nat.le_refl _)
    rw [increment_quoted s p _ _ _ _ _ _ hb hb1 hb2 hq hq1
      (by rw [hq2]; exact is_tchar_of_grammar c (hname c (by simp))) h5 he0 he1 he2 hp2 hp21
      hp22 h12]
    simp only [List.length_cons, List.length_append, List.length_singleton,
      List.length_nil] at hlen hstr2 ⊢
    refine ⟨by omega, by omega, ?_, ?_⟩
    · rw [← hstr1]; congr 2; omega
    · rw [← hstr2]; congr 2; omega

theorem increment_sound (s : List Nat) (p : param_iter) (ho : octets s)
    (h1 : p.it ≤ p.end_) (h2 : p.end_ ≤ s.length)
    (hs : (p.increment s).it ≠ (p.increment s).begin) :
    ∃ name value rest, grammar_param (range s p.it p.end_) name value rest := by
  rcases increment_cases s p with hfail |
    ⟨b, q, p1, e0, p2, r, hb, hb1, hb2, hq, hq1, hq2, h5, he0, he1, he2, hp2, hp21, hcase, -⟩
  · rw [hfail] at hs
    exact absurd rfl hs
  have hc0 := cursor_start s p.it p.end_ h1 h2
  -- leading white space and the semicolon
  obtain ⟨o0, t0, hl0, ho0, hsk0, hcur0, -⟩ := skip_ows_split s _ _ _ hc0
  rw [hb] at hsk0
  rw [← hsk0] at hcur0
  obtain ⟨c, t1, rfl⟩ := cursor_cases s _ _ _ hcur0 hb1
  obtain ⟨-, -, hd, hcur1⟩ := cursor_cons s _ _ _ _ hcur0
  rw [hb2] at hd
  subst hd
  -- white space and the name
  obtain ⟨o1, t2, rfl, ho1, hsk1, hcur2, -⟩ := skip_ows_split s _ _ _ hcur1
  rw [hq] at hsk1
  rw [← hsk1] at hcur2
  obtain ⟨c2, t3, rfl⟩ := cursor_cases s _ _ _ hcur2 hq1
  obtain ⟨-, -, hd2, -⟩ := cursor_cons s _ _ _ _ hcur2
  rw [hd2] at hq2
  obtain ⟨n, t4, rfl, hn, ht4⟩ := tchar_split t3
  have hnl := name_loop_cursor s p.end_ n t4 hn ht4 q c2 hcur2
  rw [h5] at hnl
  have ht4ne : t4 ≠ [] := by
    intro h
    simp [h] at hnl
  rw [if_neg ht4ne, Option.some.injEq] at hnl
  have hcur3 := cursor_append s p.end_ (c2 :: n) t4 q hcur2
  have hp1 : q + (c2 :: n).length = p1 := by
    simp only [List.length_cons]; omega
  rw [hp1] at hcur3
  -- white space and the equals sign
  obtain ⟨o2, t5, rfl, ho2, hsk2, hcur4, -⟩ := skip_ows_split s _ _ _ hcur3
  rw [he0] at hsk2
  rw [← hsk2] at hcur4
  obtain ⟨c5, t6, rfl⟩ := cursor_cases s _ _ _ hcur4 he1
  obtain ⟨-, -, hd5, hcur5⟩ := cursor_cons s _ _ _ _ hcur4
  rw [he2] at hd5
  subst hd5
  -- white space and the value
  obtain ⟨o3, t7, rfl, ho3, hsk3, hcur6, -⟩ := skip_ows_split s _ _ _ hcur5
  rw [hp2] at hsk3
  rw [← hsk3] at hcur6
  obtain ⟨c7, t8, rfl⟩ := cursor_cases s _ _ _ hcur6 hp21
  obtain ⟨-, -, hd7, hcur7⟩ := cursor_cons s _ _ _ _ hcur6
  have hmem : ∀ x ∈ c2 :: n, x ∈ s := fun x hx =>
    cursor_mem s _ _ _ hcur2 x (by
      simp only [List.mem_cons, List.mem_append] at hx ⊢
      tauto)
  have hname : grammar_token (c2 :: n) := by
    refine ⟨by simp, fun x hx => (is_tchar_iff x (ho x (hmem x hx))).mp ?_⟩
    rcases List.mem_cons.mp hx with rfl | hx
    · exact hq2
    · exact hn x hx
  have hmem7 : ∀ x ∈ c7 :: t8, x ∈ s := cursor_mem s _ _ _ hcur6
  rcases hcase with ⟨h34, hql⟩ | ⟨hn34, htc, -⟩
  · rw [hd7] at h34
    subst h34
    obtain ⟨body, rest, rfl, hbody, -⟩ := quoted_loop_sound s p.end_ _ _ _ _ hcur7
      (fun x hx => ho x (hmem7 x (by simp [hx]))) hql
    refine ⟨c2 :: n, 34 :: body ++ [34], rest, o0, o1, o2, o3, ho0, ho1, ho2, ho3, hname,
      Or.inr ⟨body, hbody, rfl⟩, ?_⟩
    rw [hl0]
    simp
  · rw [hd7] at hn34 htc
    obtain ⟨v, rest, rfl, hv, hrest⟩ := tchar_split t8
    refine ⟨c2 :: n, c7 :: v, rest, o0, o1, o2, o3, ho0, ho1, ho2, ho3, hname,
      Or.inl ⟨⟨by simp, fun x hx => ?_⟩, fun x hx hg => ?_⟩, ?_⟩
    · refine (is_tchar_iff x (ho x (hmem7 x ?_))).mp ?_
      · simp only [List.mem_cons, List.mem_append] at hx ⊢
        tauto
      · rcases List.mem_cons.mp hx with rfl | hx
        · exact htc
        · exact hv x hx
    · have := hrest x hx
      rw [is_tchar_of_grammar x hg] at this
      exact absurd this (by simp)
    · rw [hl0]
      simp

theorem skip_ows_loop_bound (s : List Nat) (e : Nat) :
    ∀ fuel a, a ≤ skip_ows_loop s e fuel a ∧ (a ≤ e → skip_ows_loop s e fuel a ≤ e) := by
  intro fuel
  induction fuel with
  | zero => intro a; exact ⟨le_refl _, fun h => h⟩
  | succ n ih =>
    intro a
    unfold skip_ows_loop
    by_cases hae : a = e
    · simp only [hae, ne_eq, not_true_eq_false, if_false, le_refl, true_and, implies_true]
    · simp only [ne_eq, hae, not_false_eq_true, if_true]
      by_cases hc : deref s a ≠ 32 ∧ deref s a ≠ 9
      · simp only [hc, ne_eq, not_false_eq_true, and_self, if_true, le_refl, true_and]
        exact fun h => h
      · simp only [hc, if_false]
        have := ih (a + 1)
        exact ⟨by omega, fun h => this.2 (by omega)⟩

theorem skip_ows_ge (s : List Nat) (a e : Nat) : a ≤ skip_ows s a e :=
  (skip_ows_loop_bound s e (e - a) a).1

theorem skip_ows_le (s : List Nat) (a e : Nat) (h : a ≤ e) : skip_ows s a e ≤ e :=
  (skip_ows_loop_bound s e (e - a) a).2 h

theorem skip_ows_stop (s : List Nat) (e : Nat) :
    ∀ n a, e - a ≤ n → a ≤ e →
      skip_ows s a e = e ∨
        (skip_ows s a e < e ∧ deref s (skip_ows s a e) ≠ 32 ∧ deref s (skip_ows s a e) ≠ 9) := by
  intro n
  induction n with
  | zero =>
    intro a h1 h2
    left
    rw [skip_ows_end s a e (by omega)]
    omega
  | succ n ih =>
    intro a h1 h2
    by_cases hae : a = e
    · left
      rw [skip_ows_end s a e (by omega)]
      exact hae
    · have hlt : a < e := by omega
      rw [skip_ows_step s a e hlt]
      by_cases hc : deref s a ≠ 32 ∧ deref s a ≠ 9
      · rw [if_pos hc]
        exact Or.inr ⟨hlt, hc⟩
      · rw [if_neg hc]
        exact ih (a + 1) (by omega) (by omega)

theorem skip_ows_idem (s : List Nat) (a e : Nat) :
    skip_ows s (skip_ows s a e) e = skip_ows s a e := by
  by_cases h : a ≤ e
  · rcases skip_ows_stop s e (e - a) a (le_refl _) h with h1 | ⟨h1, h2, h3⟩
    · exact skip_ows_end s _ e (by omega)
    · rw [skip_ows_step s _ e h1, if_pos ⟨h2, h3⟩]
  · have := skip_ows_ge s a e
    exact skip_ows_end s _ e (by omega)

theorem name_loop_bound (s : List Nat) (e : Nat) :
    ∀ fuel a r, param_iter.name_loop s e fuel a = some r → a < r ∧ (a < e → r < e) := by
  intro fuel
  induction fuel with
  | zero => intro a r h; simp [param_iter.name_loop] at h
  | succ n ih =>
    intro a r h
    unfold param_iter.name_loop at h
    by_cases hae : a + 1 = e
    · simp [hae] at h
    · simp only [hae, if_false] at h
      by_cases hc : is_tchar (deref s (a + 1)) = true
      · simp only [hc, Bool.not_true, Bool.false_eq_true, if_false] at h
        have := ih (a + 1) r h
        exact ⟨by omega, fun h2 => this.2 (by omega)⟩
      · simp only [hc, Bool.not_false, Bool.not_eq_true] at h
        simp only [Bool.not_eq_true] at hc
        simp only [hc, Bool.not_false, if_true, Option.some.injEq] at h
        exact ⟨by omega, fun h2 => by omega⟩

theorem token_loop_bound (s : List Nat) (e : Nat) :
    ∀ fuel a, a < e →
      a ≤ param_iter.token_loop s e fuel a ∧ param_iter.token_loop s e fuel a ≤ e ∧
        (0 < fuel → a < param_iter.token_loop s e fuel a) := by
  intro fuel
  induction fuel with
  | zero => intro a h; exact ⟨le_refl _, le_of_lt h, fun h0 => absurd h0 (lt_irrefl _)⟩
  | succ n ih =>
    intro a h
    unfold param_iter.token_loop
    by_cases h1 : a + 1 = e
    · simp only [h1, if_true]
      exact ⟨by omega, le_refl _, fun _ => by omega⟩
    · simp only [h1, if_false]
      by_cases hc : is_tchar (deref s (a + 1)) = true
      · simp only [hc, Bool.not_true, Bool.false_eq_true, if_false]
        have := ih (a + 1) (by omega)
        exact ⟨by omega, this.2.1, fun _ => by omega⟩
      · simp only [Bool.not_eq_true] at hc
        simp only [hc, Bool.not_false, if_true]
        exact ⟨by omega, by omega, fun _ => by omega⟩

theorem quoted_loop_bound (s : List Nat) (e : Nat) :
    ∀ fuel a r, param_iter.quoted_loop s e fuel a = some r → a ≤ e → a < r ∧ r ≤ e := by
  intro fuel
  induction fuel with
  | zero => intro a r h; simp [param_iter.quoted_loop] at h
  | succ n ih =>
    intro a r h hle
    unfold param_iter.quoted_loop at h
    by_cases hae : a = e
    · simp [hae] at h
    · simp only [hae, if_false] at h
      by_cases h34 : deref s a = 34
      · simp only [h34, if_true, Option.some.injEq] at h
        omega
      · simp only [h34, if_false] at h
        by_cases hq : is_qdchar (deref s a) = true
        · simp only [hq, if_true] at h
          have := ih (a + 1) r h (by omega)
          omega
        · simp only [hq, if_false] at h
          by_cases h92 : deref s a = 92
          · simp only [h92, ne_eq, not_true_eq_false, if_false] at h
            by_cases hae1 : a + 1 = e
            · simp [hae1] at h
            · simp only [hae1, if_false] at h
              by_cases hp : is_qpchar (deref s (a + 1)) = true
              · simp only [hp, Bool.not_true, Bool.false_eq_true, if_false] at h
                have := ih (a + 1 + 1) r h (by omega)
                omega
              · simp only [Bool.not_eq_true] at hp
                simp [hp] at h
          · simp [h92] at h

theorem increment_norm (s : List Nat) (p : param_iter) :
    p.increment s =
      param_iter.increment s
        { it := skip_ows s p.it p.end_, begin := skip_ows s p.it p.end_, end_ := p.end_,
          v := (p.v.1.clear, p.v.2.clear) } := by
  unfold param_iter.increment
  simp only [skip_ows_idem, string_ref.clear]

theorem increment_bounds (s : List Nat) (p : param_iter) (h1 : p.it ≤ p.end_) :
    p.increment s =
      { it := skip_ows s p.it p.end_, begin := skip_ows s p.it p.end_, end_ := p.end_,
        v := (p.v.1.clear, p.v.2.clear) } ∨
    ∃ b q p1 p2 r, skip_ows s p.it p.end_ = b ∧ b < q ∧ q < p1 ∧ p1 < p2 ∧ p2 < r ∧
      r ≤ p.end_ ∧
      p.increment s =
        { it := r, begin := b, end_ := p.end_, v := (⟨q, p1 - q⟩, ⟨p2, r - p2⟩) } := by
  rcases increment_cases s p with hfail |
    ⟨b, q, p1, e0, p2, r, hb, hb1, hb2, hq, hq1, hq2, h5, he0, he1, he2, hp2, hp21, hcase, heq⟩
  · exact Or.inl hfail
  right
  have b1 := skip_ows_le s p.it p.end_ h1
  rw [hb] at b1
  have b2 := skip_ows_ge s (b + 1) p.end_
  have b3 := skip_ows_le s (b + 1) p.end_ (by omega)
  rw [hq] at b2 b3
  have b4 := name_loop_bound s p.end_ _ _ _ h5
  have b5 := b4.2 (by omega)
  have b6 := skip_ows_ge s p1 p.end_
  have b7 := skip_ows_le s p1 p.end_ (by omega)
  rw [he0] at b6 b7
  have b8 := skip_ows_ge s (e0 + 1) p.end_
  have b9 := skip_ows_le s (e0 + 1) p.end_ (by omega)
  rw [hp2] at b8 b9
  refine ⟨b, q, p1, p2, r, hb, by omega, b4.1, by omega, ?_, ?_, heq⟩
  · rcases hcase with ⟨-, hql⟩ | ⟨-, -, htl⟩
    · have := quoted_loop_bound s p.end_ _ _ _ hql (by omega)
      omega
    · have := token_loop_bound s p.end_ (p.end_ - p2) p2 (by omega)
      rw [htl] at this
      exact this.2.2 (by omega)
  · rcases hcase with ⟨-, hql⟩ | ⟨-, -, htl⟩
    · exact (quoted_loop_bound s p.end_ _ _ _ hql (by omega)).2
    · have := token_loop_bound s p.end_ (p.end_ - p2) p2 (by omega)
      rw [htl] at this
      exact this.2.1

theorem increment_again (s : List Nat) (p : param_iter)
    (h : (p.increment s).empty = true) (h1 : p.it ≤ p.end_) :
    (p.increment s).increment s = p.increment s := by
  rcases increment_bounds s p h1 with hfail | ⟨b, q, p1, p2, r, hb, c1, c2, c3, c4, c5, heq⟩
  · have hn := increment_norm s p
    rw [increment_norm s (p.increment s)]
    rw [hfail]
    simp only [skip_ows_idem, string_ref.clear]
    have h3 := hn.symm.trans hfail
    simp only [string_ref.clear] at h3
    exact h3
  · rw [heq] at h
    simp only [param_iter.empty, beq_iff_eq] at h
    omega

end http

/-! # The claims -/

namespace websocket

/-- Claim C1: in the cleanup of `ping_op` (label `upcall`), when the close queue
and the write queue each hold a waiter, the close waiter is the one resumed (it
leaves its queue, takes the lock and is posted) and the write waiter stays
queued; in general exactly the head of the first non-empty queue in the order
close, read, write is resumed, and no one when the three are empty. -/
theorem ping_op_upcall_priority_drain (self : operation) (ec : error_code) (s : stream) :
    (∀ c cs w ws, s.paused_close_ = c :: cs → s.paused_wr_ = w :: ws →
      (ping_op.upcall self ec s).2.paused_close_ = cs ∧
      (ping_op.upcall self ec s).2.paused_wr_ = w :: ws ∧
      (ping_op.upcall self ec s).2.executor = s.executor ++ [(c, .yield108, .success)] ∧
      (ping_op.upcall self ec s).2.wr_block_.holder = some c.id) ∧
    (∀ c cs, s.paused_close_ = c :: cs →
      ping_op.upcall self ec s =
        (.complete, { s with
          wr_block_ := ⟨some c.id⟩,
          paused_close_ := cs,
          executor := s.executor ++ [(c, .yield108, .success)],
          trace := s.trace ++ [.unlock self.handler (s.wr_block_.is_locked self.id),
            .lock c.handler true, .post c.handler, .invoke self.handler ec] })) ∧
    (∀ r rs, s.paused_close_ = [] → s.paused_rd_ = r :: rs →
      ping_op.upcall self ec s =
        (.complete, { s with
          wr_block_ := ⟨some r.id⟩,
          paused_rd_ := rs,
          executor := s.executor ++ [(r, .yield108, .success)],
          trace := s.trace ++ [.unlock self.handler (s.wr_block_.is_locked self.id),
            .lock r.handler true, .post r.handler, .invoke self.handler ec] })) ∧
    (∀ w ws, s.paused_close_ = [] → s.paused_rd_ = [] → s.paused_wr_ = w :: ws →
      ping_op.upcall self ec s =
        (.complete, { s with
          wr_block_ := ⟨some w.id⟩,
          paused_wr_ := ws,
          executor := s.executor ++ [(w, .yield108, .success)],
          trace := s.trace ++ [.unlock self.handler (s.wr_block_.is_locked self.id),
            .lock w.handler true, .post w.handler, .invoke self.handler ec] })) ∧
    (s.paused_close_ = [] → s.paused_rd_ = [] → s.paused_wr_ = [] →
      ping_op.upcall self ec s =
        (.complete, { s with
          wr_block_ := ⟨none⟩,
          trace := s.trace ++ [.unlock self.handler (s.wr_block_.is_locked self.id),
            .invoke self.handler ec] })) := by
  refine ⟨?_, ping_op_upcall_close self ec s, fun r rs => ping_op_upcall_rd self ec s r rs,
    fun w ws => ping_op_upcall_wr self ec s w ws, ping_op_upcall_none self ec s⟩
  intro c cs w ws hc hw
  rw [ping_op_upcall_close self ec s c cs hc]
  exact ⟨rfl, hw, rfl, rfl⟩

/-- Witness for C1: on the contended sample endpoint the close waiter is
resumed and the write waiter, which arrived first, stays queued. -/
theorem ping_op_upcall_priority_drain_witness :
    (ping_op.upcall sample_ping .success sample_contended).2.paused_close_ = [] ∧
    (ping_op.upcall sample_ping .success sample_contended).2.paused_wr_ = [sample_write] ∧
    (ping_op.upcall sample_ping .success sample_contended).2.executor =
      sample_contended.executor ++ [(sample_close, .yield108, .success)] ∧
    (ping_op.upcall sample_ping .success sample_contended).2.wr_block_.holder =
      some sample_close.id :=
  (ping_op_upcall_priority_drain sample_ping .success sample_contended).1
    sample_close [] sample_write [] rfl rfl

/-- Counterexample to C2: two pings are started back to back on an idle open
endpoint and the first one's write completes with the close, read and write
queues empty.  The first one's cleanup leaves the second on the control queue:
nothing is posted, nothing is being written, the lock is free, and the
transport has seen the first frame only. -/
theorem ping_op_back_to_back_counterexample :
    (stream.idle true).steps
        [.start sample_ping, .start sample_pong, .write_done 0 .success] =
      some { is_open := true, wr_block_ := ⟨none⟩, paused_close_ := [], paused_rd_ := [],
             paused_wr_ := [], paused_ping_ := [sample_pong], executor := [], stream_ := [],
             trace := [.try_lock 1 true, .check_open 1 true,
               .async_write 1 (write_ping .ping [1]), .try_lock 2 false, .emplace .control 2,
               .unlock 1 true, .invoke 1 .success] } := by
  rfl

/-- Claim C2, amended: a control-frame operation started while the write lock is
held is placed at the back of the control queue; when the operation whose write
completes reaches cleanup with the close, read and write queues empty, its
cleanup (from any of its entries, in particular after the write) releases the
lock and resumes no one: the control queue is left as it is, nothing is posted
and no write is issued.  A queued `ping_op` that is
resumed takes the lock and posts itself, and when run with the connection open
it performs its own transport write. -/
theorem ping_op_back_to_back (first second : operation) (ec : error_code) (s : stream) :
    (s.wr_block_.holder ≠ none →
      ping_op.call second .entry .success s =
        (.yield101, { s with
          paused_ping_ := s.paused_ping_ ++ [second],
          trace := s.trace ++
            [.try_lock second.handler false, .emplace .control second.handler] })) ∧
    (s.paused_close_ = [] → s.paused_rd_ = [] → s.paused_wr_ = [] →
      ping_op.upcall first ec s =
        (.complete, { s with
          wr_block_ := ⟨none⟩,
          trace := s.trace ++ [.unlock first.handler (s.wr_block_.is_locked first.id),
            .invoke first.handler ec] }) ∧
      ping_op.call first .yield119 ec s =
        (.complete, { s with
          is_open := s.is_open && !ec.failed,
          wr_block_ := ⟨none⟩,
          trace := s.trace ++ [.unlock first.handler (s.wr_block_.is_locked first.id),
            .invoke first.handler ec] })) ∧
    ping_op.call second .yield101 .success s =
      (.yield108, { s with
        wr_block_ := ⟨some second.id⟩,
        executor := s.executor ++ [(second, .yield108, .success)],
        trace := s.trace ++ [.lock second.handler (s.wr_block_.holder == none),
          .post second.handler] }) ∧
    (s.is_open = true →
      ping_op.call second .yield108 .success s =
        (.yield119, { s with
          stream_ := s.stream_ ++ [second],
          trace := s.trace ++ [.check_open second.handler true,
            .async_write second.handler second.fb] })) := by
  refine ⟨ping_op_call_entry_held second _ s, ?_, ping_op_call_yield101 second _ s,
    ping_op_call_yield108_open second _ s⟩
  intro hc hr hw
  refine ⟨ping_op_upcall_none first ec s hc hr hw, ?_⟩
  rw [ping_op_call_yield119]
  exact ping_op_upcall_none first ec _ hc hr hw

/-- Witness for C2 (amended): on the sample endpoint where a ping is writing, a
pong that is started joins the control queue. -/
theorem ping_op_back_to_back_witness :
    ping_op.call sample_pong .entry .success sample_writing =
      (.yield101, { sample_writing with
        paused_ping_ := [sample_pong],
        trace := sample_writing.trace ++ [.try_lock 2 false, .emplace .control 2] }) :=
  (ping_op_back_to_back sample_ping sample_pong .success sample_writing).1 (by decide)

/-- Counterexample to C3: on a closed idle endpoint `async_ping` takes the write
lock (and is posted holding it); on a closed endpoint whose lock is held it is
placed on the control queue. -/
theorem ping_op_start_when_closed_counterexample :
    ((stream.idle false).async_ping [1] 1).wr_block_.holder = some 3 ∧
    ((stream.idle false).async_ping [1] 1).trace =
      [.try_lock 1 true, .check_open 1 false, .post 1] ∧
    ((stream.idle false).async_ping [1] 1).executor =
      [(sample_ping, .yield91, .operation_aborted)] ∧
    ({ stream.idle false with wr_block_ := ⟨some 1⟩ }.async_ping [1] 1).paused_ping_ =
      [sample_ping] := by
  decide

/-- Claim C3, amended: with the connection not open, a control-frame operation
that is started while the write lock is free takes the lock first, then finds
the stream not open, issues no transport write, joins no queue and posts itself
to the executor; resumed, it releases the lock, runs the drain step and invokes
completion with the not-open error.  Started while the lock is held, it is
placed on the control queue and the initiating call returns. -/
theorem ping_op_start_when_closed (self : operation) (s : stream)
    (e2 : error_code × stream) (rest : List (error_code × stream))
    (hclosed : s.is_open = false) :
    (s.wr_block_.holder = none →
      ping_op.call self .entry .success s =
        (.yield91, { s with
          wr_block_ := ⟨some self.id⟩,
          executor := s.executor ++ [(self, .yield91, .operation_aborted)],
          trace := s.trace ++ [.try_lock self.handler true, .check_open self.handler false,
            .post self.handler] }) ∧
      ∃ mid, drain_events mid ∧
        ping_op.exec self .entry .success ((.success, s) :: e2 :: rest) =
          (.complete, [.try_lock self.handler true, .check_open self.handler false,
            .post self.handler, .unlock self.handler (e2.2.wr_block_.is_locked self.id)] ++
            mid ++ [.invoke self.handler .operation_aborted])) ∧
    (s.wr_block_.holder ≠ none →
      ping_op.call self .entry .success s =
        (.yield101, { s with
          paused_ping_ := s.paused_ping_ ++ [self],
          trace := s.trace ++
            [.try_lock self.handler false, .emplace .control self.handler] })) := by
  refine ⟨fun hh => ⟨ping_op_call_entry_closed self _ s hh hclosed, ?_⟩,
    ping_op_call_entry_held self _ s⟩
  exact ping_op_exec_sync_closed self (.success, s) e2 rest hh hclosed

/-- Witness for C3 (amended): `sample_ping` started on a closed idle endpoint. -/
theorem ping_op_start_when_closed_witness :
    ping_op.call sample_ping .entry .success (stream.idle false) =
      (.yield91, { stream.idle false with
        wr_block_ := ⟨some 3⟩,
        executor := [(sample_ping, .yield91, .operation_aborted)],
        trace := [.try_lock 1 true, .check_open 1 false, .post 1] }) :=
  ((ping_op_start_when_closed sample_ping (stream.idle false) (.success, stream.idle false)
    [] rfl).1 rfl).1

/-- Claim C4: every run of `ping_op` to its end (whatever the lock, the
connection status at each check and the outcome of the write are) reaches the
end of the coroutine and invokes the completion handler exactly once, as its
last call, with the final error code: the not-open error or the outcome the
transport reported. -/
theorem ping_op_completion_exactly_once (self : operation)
    (env : List (error_code × stream)) (h : 4 ≤ env.length) :
    (ping_op.exec self .entry .success env).1 = .complete ∧
    ∃ pre ec, (ping_op.exec self .entry .success env).2 = pre ++ [.invoke self.handler ec] ∧
      completions pre = [] ∧
      completions (ping_op.exec self .entry .success env).2 = [(self.handler, ec)] ∧
      (ec = .operation_aborted ∨ ∃ e ∈ env, ec = e.1) := by
  obtain ⟨pre, mid, held, ec, hmid, hex, hpre⟩ := ping_op_exec_paths self env h
  obtain ⟨hm, -, -⟩ := drain_events_completions mid hmid
  rw [hex]
  refine ⟨rfl, pre ++ .unlock self.handler held :: mid, ec, by simp, ?_, ?_, ?_⟩
  · rcases hpre with ⟨rfl, -⟩ | ⟨rfl, -⟩ | ⟨f, rfl, -⟩ | ⟨f, rfl, -⟩ <;>
      simp [completions_append, completions_cons, completions_nil, hm]
  · rcases hpre with ⟨rfl, -⟩ | ⟨rfl, -⟩ | ⟨f, rfl, -⟩ | ⟨f, rfl, -⟩ <;>
      simp [completions_append, completions_cons, completions_nil, hm]
  · rcases hpre with ⟨-, he⟩ | ⟨-, he⟩ | ⟨f, -, he⟩ | ⟨f, -, he⟩
    · exact Or.inr he
    · exact Or.inl he
    · exact Or.inr he
    · exact Or.inl he

/-- Witness for C4: the run of `sample_pong` in the sample environment. -/
theorem ping_op_completion_exactly_once_witness :
    4 ≤ sample_env.length ∧ (ping_op.exec sample_pong .entry .success sample_env).1 = .complete :=
  ⟨by decide, (ping_op_completion_exactly_once sample_pong sample_env (by decide)).1⟩

/-- Claim C5: in every state the endpoint can reach, whatever operations were
started and however their calls interleave, at most one transport write is in
flight, the operation whose write is in flight holds the write lock, no other
continuation is posted meanwhile, and the lock has at most one holder; the same
holds after whatever step comes next, so a `ping_op` that issues `async_write`
in that step does so as the holder of the lock. -/
theorem ping_op_write_mutual_exclusion (s : stream) (h : s.reachable) :
    s.stream_.length ≤ 1 ∧
    (∀ o ∈ s.stream_, s.wr_block_.is_locked o.id = true) ∧
    (s.stream_ ≠ [] → s.executor = []) ∧
    (∀ i j, s.wr_block_.is_locked i = true → s.wr_block_.is_locked j = true → i = j) ∧
    (∀ a t, s.step a = some t →
      t.stream_.length ≤ 1 ∧ ∀ o ∈ t.stream_, t.wr_block_.is_locked o.id = true) := by
  have hi := stream_reachable_lock_inv s h
  refine ⟨?_, ?_, ?_, ?_, ?_⟩
  rotate_right
  · intro a t hst
    have ht := stream_step_lock_inv s t a hi hst
    refine ⟨?_, fun o ho => by simp [soft_mutex.is_locked, ht.writing o ho]⟩
    have := ht.single
    omega
  · have := hi.single
    omega
  · intro o ho
    simp [soft_mutex.is_locked, hi.writing o ho]
  · intro hne
    have := hi.single
    rcases hs : s.stream_ with _ | ⟨a, as⟩
    · exact absurd hs hne
    · rw [hs] at this
      rcases he : s.executor with _ | ⟨b, bs⟩
      · rfl
      · rw [he] at this
        simp at this
        omega
  · intro i j hi hj
    simp only [soft_mutex.is_locked, beq_iff_eq] at hi hj
    rw [hi] at hj
    exact Option.some.inj hj

/-- Witness for C5: the contended sample endpoint is reachable, and one write is
in flight on it. -/
theorem ping_op_write_mutual_exclusion_witness :
    sample_contended.reachable ∧ sample_contended.stream_.length ≤ 1 :=
  ⟨sample_contended_reachable,
    (ping_op_write_mutual_exclusion sample_contended sample_contended_reachable).1⟩

/-- Claim C6: every run of `ping_op` to its end calls `unlock` exactly once,
after any transport write it issued and before invoking completion; and in
every state the endpoint can reach, every `unlock` that was called was called by
the operation holding the lock. -/
theorem ping_op_single_release (self : operation) (env : List (error_code × stream))
    (h : 4 ≤ env.length) (s : stream) (hs : s.reachable) :
    (∃ pre held post, (ping_op.exec self .entry .success env).2 =
        pre ++ .unlock self.handler held :: post ∧
      unlocks pre = [] ∧ unlocks post = [] ∧ writes post = [] ∧
      completions pre = [] ∧
      unlocks (ping_op.exec self .entry .success env).2 = [(self.handler, held)]) ∧
    (∀ u ∈ unlocks s.trace, u.2 = true) := by
  refine ⟨?_, (stream_reachable_lock_inv s hs).released⟩
  obtain ⟨pre, mid, held, ec, hmid, hex, hpre⟩ := ping_op_exec_paths self env h
  obtain ⟨hm, hu, hw⟩ := drain_events_completions mid hmid
  rw [hex]
  refine ⟨pre, held, mid ++ [.invoke self.handler ec], by simp, ?_, ?_, ?_, ?_, ?_⟩
  · rcases hpre with ⟨rfl, -⟩ | ⟨rfl, -⟩ | ⟨f, rfl, -⟩ | ⟨f, rfl, -⟩ <;>
      simp [unlocks_cons, unlocks_nil]
  · simp [unlocks_append, unlocks_cons, unlocks_nil, hu]
  · simp [writes_append, writes_cons, writes_nil, hw]
  · rcases hpre with ⟨rfl, -⟩ | ⟨rfl, -⟩ | ⟨f, rfl, -⟩ | ⟨f, rfl, -⟩ <;>
      simp [completions_cons, completions_nil]
  · rcases hpre with ⟨rfl, -⟩ | ⟨rfl, -⟩ | ⟨f, rfl, -⟩ | ⟨f, rfl, -⟩ <;>
      simp [unlocks_append, unlocks_cons, unlocks_nil, hu]

/-- Witness for C6: the run of `sample_pong` in the sample environment, and the
sample endpoint on which a ping has released the lock. -/
theorem ping_op_single_release_witness :
    4 ≤ sample_env.length ∧ sample_released.reachable ∧
      ∀ u ∈ unlocks sample_released.trace, u.2 = true :=
  ⟨by decide, sample_released_reachable,
    (ping_op_single_release sample_pong sample_env (by decide) sample_released
      sample_released_reachable).2⟩

/-- Claim C7: right after the release and drain steps of a `ping_op` cleanup the
write lock is free when no waiter was drained, and otherwise held by the one
waiter the cleanup resumed (the head of the first non-empty queue among close,
read, write), which is the only continuation the cleanup posted; it is not
held by the completing operation any more. -/
theorem ping_op_no_lock_leak (self : operation) (ec : error_code) (s : stream) :
    (s.paused_close_ ++ s.paused_rd_ ++ s.paused_wr_ = [] →
      (ping_op.upcall self ec s).2.wr_block_.holder = none ∧
      (ping_op.upcall self ec s).2.executor = s.executor) ∧
    (∀ w, (s.paused_close_ ++ s.paused_rd_ ++ s.paused_wr_).head? = some w →
      (ping_op.upcall self ec s).2.wr_block_.holder = some w.id ∧
      (ping_op.upcall self ec s).2.executor = s.executor ++ [(w, .yield108, .success)] ∧
      (w.id ≠ self.id → (ping_op.upcall self ec s).2.wr_block_.is_locked self.id = false)) := by
  rcases hc : s.paused_close_ with _ | ⟨c, cs⟩
  · rcases hr : s.paused_rd_ with _ | ⟨r, rs⟩
    · rcases hw : s.paused_wr_ with _ | ⟨w, ws⟩
      · rw [ping_op_upcall_none self ec s hc hr hw]
        simp
      · rw [ping_op_upcall_wr self ec s w ws hc hr hw]
        simp only [List.nil_append, List.head?_cons, Option.some.injEq, reduceCtorEq,
          false_implies, true_and]
        rintro x rfl
        exact ⟨rfl, rfl, fun hne => by simpa [soft_mutex.is_locked] using hne⟩
    · rw [ping_op_upcall_rd self ec s r rs hc hr]
      simp only [List.nil_append, List.cons_append, List.head?_cons, Option.some.injEq,
        reduceCtorEq, false_implies, true_and]
      rintro x rfl
      exact ⟨rfl, rfl, fun hne => by simpa [soft_mutex.is_locked] using hne⟩
  · rw [ping_op_upcall_close self ec s c cs hc]
    simp only [List.cons_append, List.head?_cons, Option.some.injEq, reduceCtorEq,
      false_implies, true_and]
    rintro x rfl
    exact ⟨rfl, rfl, fun hne => by simpa [soft_mutex.is_locked] using hne⟩

/-- Witness for C7: on the contended sample endpoint the lock passes to the
close waiter and is no longer held by the completing ping. -/
theorem ping_op_no_lock_leak_witness :
    (ping_op.upcall sample_ping .success sample_contended).2.wr_block_.holder = some 1 ∧
    (ping_op.upcall sample_ping .success sample_contended).2.wr_block_.is_locked 3 = false :=
  ⟨((ping_op_no_lock_leak sample_ping .success sample_contended).2 sample_close rfl).1,
    ((ping_op_no_lock_leak sample_ping .success sample_contended).2 sample_close rfl).2.2
      (by decide)⟩

/-- Claim C8: when the transport write of a `ping_op` completes with outcome
`ec` (an error or success), the operation goes to cleanup with exactly that
outcome: it releases the write lock, runs the drain step and invokes completion
with `ec`, issuing no further write; a transport failure marks the connection
not open.  No run of a `ping_op` issues more than one transport write. -/
theorem ping_op_transport_outcome (self : operation) (ec : error_code) (s : stream)
    (env : List (error_code × stream)) (h : 4 ≤ env.length) :
    ping_op.call self .yield119 ec s =
      ping_op.upcall self ec { s with is_open := s.is_open && !ec.failed } ∧
    (ping_op.call self .yield119 ec s).1 = .complete ∧
    (∃ mid, drain_events mid ∧
      (ping_op.call self .yield119 ec s).2.trace =
        s.trace ++ .unlock self.handler (s.wr_block_.is_locked self.id) :: mid ++
          [.invoke self.handler ec]) ∧
    (ping_op.call self .yield119 ec s).2.stream_ = s.stream_ ∧
    (ping_op.call self .yield119 ec s).2.is_open = (s.is_open && !ec.failed) ∧
    (writes (ping_op.exec self .entry .success env).2).length ≤ 1 := by
  refine ⟨ping_op_call_yield119 self ec s, ?_, ?_, ?_, ?_, ?_⟩
  · rw [ping_op_call_yield119]; rfl
  · rw [ping_op_call_yield119]
    exact ping_op_upcall_trace self ec _
  · rw [ping_op_call_yield119]
    exact (ping_op_upcall_stream_ self ec _).1
  · rw [ping_op_call_yield119]
    exact (ping_op_upcall_stream_ self ec _).2
  · obtain ⟨pre, mid, held, ec', hmid, hex, hpre⟩ := ping_op_exec_paths self env h
    obtain ⟨-, -, hw⟩ := drain_events_completions mid hmid
    rw [hex]
    rcases hpre with ⟨rfl, -⟩ | ⟨rfl, -⟩ | ⟨f, rfl, -⟩ | ⟨f, rfl, -⟩ <;>
      simp [writes_append, writes_cons, writes_nil, hw]

/-- Witness for C8: the run of `sample_pong` in the sample environment, and the
failure of the write of `sample_ping` on the contended sample endpoint. -/
theorem ping_op_transport_outcome_witness :
    4 ≤ sample_env.length ∧
    (ping_op.call sample_ping .yield119 (.failure 5) sample_contended).2.is_open = false :=
  ⟨by decide,
    (ping_op_transport_outcome sample_ping (.failure 5) sample_contended sample_env
      (by decide)).2.2.2.2.1⟩

/-- Claim C9: in every run of `ping_op` the openness check comes after the
operation took the write lock (by `try_lock` on the synchronous path, by `lock`
when resumed from the queue) and before any transport write; when the check
fails the operation goes to cleanup (at once when it was resumed from the queue,
through the executor on the synchronous path), no write is issued and
completion gets the not-open error; when it succeeds the write follows.  In
every state the endpoint can reach, a posted continuation still holds the lock
when it is resumed, so the check of a resumed operation is made by the holder. -/
theorem ping_op_validate_before_write (self : operation) (env : List (error_code × stream))
    (h : 4 ≤ env.length) (s : stream) (hs : s.reachable) :
    (∃ pre ok post, (ping_op.exec self .entry .success env).2 =
        pre ++ .check_open self.handler ok :: post ∧
      (.try_lock self.handler true ∈ pre ∨ ∃ f, .lock self.handler f ∈ pre) ∧
      writes pre = [] ∧
      (ok = false →
        writes (ping_op.exec self .entry .success env).2 = [] ∧
        completions (ping_op.exec self .entry .success env).2 =
          [(self.handler, .operation_aborted)] ∧
        ∃ held post1, post = .unlock self.handler held :: post1 ∨
          post = .post self.handler :: .unlock self.handler held :: post1) ∧
      (ok = true →
        writes (ping_op.exec self .entry .success env).2 = [(self.handler, self.fb)] ∧
        ∃ post1, post = .async_write self.handler self.fb :: post1)) ∧
    (∀ p ∈ s.executor, s.wr_block_.is_locked p.1.id = true) := by
  refine ⟨?_, fun p hp => by
    simp [soft_mutex.is_locked, ((stream_reachable_lock_inv s hs).posted p hp).1]⟩
  obtain ⟨pre, mid, held, ec, hmid, hex, hpre⟩ := ping_op_exec_paths self env h
  obtain ⟨hc, -, hw⟩ := drain_events_completions mid hmid
  rw [hex]
  rcases hpre with ⟨rfl, -⟩ | ⟨rfl, rfl⟩ | ⟨f, rfl, -⟩ | ⟨f, rfl, rfl⟩
  · refine ⟨[.try_lock self.handler true], true, _, rfl, Or.inl (by simp), rfl, by simp, ?_⟩
    intro _
    exact ⟨by simp [writes_append, writes_cons, writes_nil, hw], _, rfl⟩
  · refine ⟨[.try_lock self.handler true], false, _, rfl, Or.inl (by simp), rfl, ?_, by simp⟩
    intro _
    exact ⟨by simp [writes_append, writes_cons, writes_nil, hw],
      by simp [completions_append, completions_cons, completions_nil, hc],
      held, _, Or.inr rfl⟩
  · refine ⟨[.try_lock self.handler false, .emplace .control self.handler,
      .lock self.handler f, .post self.handler], true, _, rfl, Or.inr ⟨f, by simp⟩, rfl,
      by simp, ?_⟩
    intro _
    exact ⟨by simp [writes_append, writes_cons, writes_nil, hw], _, rfl⟩
  · refine ⟨[.try_lock self.handler false, .emplace .control self.handler,
      .lock self.handler f, .post self.handler], false, _, rfl, Or.inr ⟨f, by simp⟩, rfl,
      ?_, by simp⟩
    intro _
    exact ⟨by simp [writes_append, writes_cons, writes_nil, hw],
      by simp [completions_append, completions_cons, completions_nil, hc],
      held, _, Or.inl rfl⟩

/-- Witness for C9: the run of `sample_pong` in the sample environment, and the
sample endpoint on which a ping is posted. -/
theorem ping_op_validate_before_write_witness :
    4 ≤ sample_env.length ∧ sample_posted.reachable ∧
      sample_posted.wr_block_.is_locked sample_ping.id = true :=
  ⟨by decide, sample_posted_reachable,
    (ping_op_validate_before_write sample_pong sample_env (by decide) sample_posted
      sample_posted_reachable).2 (sample_ping, .yield91, .operation_aborted)
      (List.mem_singleton.mpr rfl)⟩

/-- Claim C10: the first entry into `ping_op::operator()` (the initiating call
of `async_ping` and `async_pong`) invokes no completion handler and leaves the
coroutine suspended: queued, posted to the executor, or with its transport write
pending.  When the lock is taken synchronously and the connection is found
closed, the operation posts itself rather than completing.  In every run to
the end, a suspension of the operation precedes its completion. -/
theorem ping_op_deferred_completion (self : operation) (s : stream)
    (payload : List Nat) (handler : Nat)
    (env : List (error_code × stream)) (h : 4 ≤ env.length) :
    completions (ping_op.call self .entry .success s).2.trace = completions s.trace ∧
    ((ping_op.call self .entry .success s).1 = .yield91 ∨
      (ping_op.call self .entry .success s).1 = .yield101 ∨
      (ping_op.call self .entry .success s).1 = .yield119) ∧
    (s.wr_block_.holder = none → s.is_open = false →
      (ping_op.call self .entry .success s).1 = .yield91 ∧
      (ping_op.call self .entry .success s).2.executor =
        s.executor ++ [(self, .yield91, .operation_aborted)]) ∧
    completions (s.async_ping payload handler).trace = completions s.trace ∧
    completions (s.async_pong payload handler).trace = completions s.trace ∧
    (∃ pre susp post ec, (ping_op.exec self .entry .success env).2 =
        pre ++ susp :: post ++ [.invoke self.handler ec] ∧
      completions pre = [] ∧ completions post = [] ∧
      (susp = .emplace .control self.handler ∨ susp = .post self.handler ∨
        susp = .async_write self.handler self.fb)) := by
  have key : ∀ o : operation,
      completions (ping_op.call o .entry .success s).2.trace = completions s.trace ∧
      ((ping_op.call o .entry .success s).1 = .yield91 ∨
        (ping_op.call o .entry .success s).1 = .yield101 ∨
        (ping_op.call o .entry .success s).1 = .yield119) := by
    intro o
    by_cases hh : s.wr_block_.holder = none
    · cases ho : s.is_open
      · rw [ping_op_call_entry_closed o _ s hh ho]
        exact ⟨by simp [completions_append, completions_cons, completions_nil], Or.inl rfl⟩
      · rw [ping_op_call_entry_open o _ s hh ho]
        exact ⟨by simp [completions_append, completions_cons, completions_nil],
          Or.inr (Or.inr rfl)⟩
    · rw [ping_op_call_entry_held o _ s hh]
      exact ⟨by simp [completions_append, completions_cons, completions_nil],
        Or.inr (Or.inl rfl)⟩
  refine ⟨(key self).1, (key self).2, ?_, (key _).1, (key _).1, ?_⟩
  · intro hh ho
    rw [ping_op_call_entry_closed self _ s hh ho]
    exact ⟨rfl, rfl⟩
  · obtain ⟨pre, mid, held, ec, hmid, hex, hpre⟩ := ping_op_exec_paths self env h
    obtain ⟨hc, -, -⟩ := drain_events_completions mid hmid
    rw [hex]
    rcases hpre with ⟨rfl, -⟩ | ⟨rfl, -⟩ | ⟨f, rfl, -⟩ | ⟨f, rfl, -⟩
    · exact ⟨[.try_lock self.handler true, .check_open self.handler true],
        .async_write self.handler self.fb, .unlock self.handler held :: mid, ec, by simp,
        by simp [completions_cons, completions_nil],
        by simp [completions_cons, hc], Or.inr (Or.inr rfl)⟩
    · exact ⟨[.try_lock self.handler true, .check_open self.handler false],
        .post self.handler, .unlock self.handler held :: mid, ec, by simp,
        by simp [completions_cons, completions_nil],
        by simp [completions_cons, hc], Or.inr (Or.inl rfl)⟩
    · exact ⟨[.try_lock self.handler false], .emplace .control self.handler,
        [.lock self.handler f, .post self.handler, .check_open self.handler true,
          .async_write self.handler self.fb, .unlock self.handler held] ++ mid, ec, by simp,
        by simp [completions_cons, completions_nil],
        by simp [completions_append, completions_cons, completions_nil, hc], Or.inl rfl⟩
    · exact ⟨[.try_lock self.handler false], .emplace .control self.handler,
        [.lock self.handler f, .post self.handler, .check_open self.handler false,
          .unlock self.handler held] ++ mid, ec, by simp,
        by simp [completions_cons, completions_nil],
        by simp [completions_append, completions_cons, completions_nil, hc], Or.inl rfl⟩

/-- Witness for C10: `sample_ping` started on a closed idle endpoint is posted,
not completed. -/
theorem ping_op_deferred_completion_witness :
    4 ≤ sample_env.length ∧
    (ping_op.call sample_ping .entry .success (stream.idle false)).1 = .yield91 :=
  ⟨by decide,
    ((ping_op_deferred_completion sample_ping (stream.idle false) [] 0 sample_env
      (by decide)).2.2.1 rfl rfl).1⟩

/-- Claim C11: in the cleanup of `ping_op` the call of `unlock` comes first, the
drain step (at most the one waiter that takes the lock and posts itself) next
and the completion handler last; in every run of `ping_op` to its end no
completion is invoked before the `unlock`; and when completion is invoked the
lock is free or held by the drained waiter, so not by the completing operation
(whose identity differs from the waiters'). -/
theorem ping_op_cleanup_ordering (self : operation) (ec : error_code) (s : stream)
    (env : List (error_code × stream)) (h : 4 ≤ env.length) :
    (∃ mid, drain_events mid ∧
      (ping_op.upcall self ec s).2.trace =
        s.trace ++ .unlock self.handler (s.wr_block_.is_locked self.id) :: mid ++
          [.invoke self.handler ec] ∧
      (mid = [] ↔ s.paused_close_ ++ s.paused_rd_ ++ s.paused_wr_ = [])) ∧
    (∃ pre held mid ec1, drain_events mid ∧
      (ping_op.exec self .entry .success env).2 =
        pre ++ .unlock self.handler held :: mid ++ [.invoke self.handler ec1] ∧
      completions pre = [] ∧ unlocks pre = []) ∧
    ((∀ w ∈ s.paused_close_ ++ s.paused_rd_ ++ s.paused_wr_, w.id ≠ self.id) →
      (ping_op.upcall self ec s).2.wr_block_.is_locked self.id = false) := by
  refine ⟨?_, ?_, ?_⟩
  · rcases hc : s.paused_close_ with _ | ⟨c, cs⟩
    · rcases hr : s.paused_rd_ with _ | ⟨r, rs⟩
      · rcases hw : s.paused_wr_ with _ | ⟨w, ws⟩
        · exact ⟨[], Or.inl rfl, by simp [ping_op_upcall_none self ec s hc hr hw], by simp⟩
        · exact ⟨_, Or.inr ⟨w.handler, rfl⟩,
            by simp [ping_op_upcall_wr self ec s w ws hc hr hw], by simp⟩
      · exact ⟨_, Or.inr ⟨r.handler, rfl⟩,
          by simp [ping_op_upcall_rd self ec s r rs hc hr], by simp⟩
    · exact ⟨_, Or.inr ⟨c.handler, rfl⟩,
        by simp [ping_op_upcall_close self ec s c cs hc], by simp⟩
  · obtain ⟨pre, mid, held, ec1, hmid, hex, hpre⟩ := ping_op_exec_paths self env h
    refine ⟨pre, held, mid, ec1, hmid, by rw [hex], ?_, ?_⟩
    · rcases hpre with ⟨rfl, -⟩ | ⟨rfl, -⟩ | ⟨f, rfl, -⟩ | ⟨f, rfl, -⟩ <;>
        simp [completions_cons, completions_nil]
    · rcases hpre with ⟨rfl, -⟩ | ⟨rfl, -⟩ | ⟨f, rfl, -⟩ | ⟨f, rfl, -⟩ <;>
        simp [unlocks_cons, unlocks_nil]
  · intro hne
    rcases hc : s.paused_close_ with _ | ⟨c, cs⟩
    · rcases hr : s.paused_rd_ with _ | ⟨r, rs⟩
      · rcases hw : s.paused_wr_ with _ | ⟨w, ws⟩
        · rw [ping_op_upcall_none self ec s hc hr hw]
          simp [soft_mutex.is_locked]
        · rw [ping_op_upcall_wr self ec s w ws hc hr hw]
          have := hne w (by simp [hw])
          simpa [soft_mutex.is_locked] using this
      · rw [ping_op_upcall_rd self ec s r rs hc hr]
        have := hne r (by simp [hr])
        simpa [soft_mutex.is_locked] using this
    · rw [ping_op_upcall_close self ec s c cs hc]
      have := hne c (by simp [hc])
      simpa [soft_mutex.is_locked] using this

/-- Witness for C11: the run of `sample_pong` in the sample environment, and the
cleanup of `sample_ping` on the contended sample endpoint, after which the ping
does not hold the lock. -/
theorem ping_op_cleanup_ordering_witness :
    4 ≤ sample_env.length ∧
    (ping_op.upcall sample_ping .success sample_contended).2.wr_block_.is_locked
      sample_ping.id = false :=
  ⟨by decide,
    (ping_op_cleanup_ordering sample_ping .success sample_contended sample_env
      (by decide)).2.2 (by decide)⟩

/-- Claim C12: with the connection not open the synchronous `ping` and `pong`
return with `ec` set to the not-open error, hand nothing to the transport and
leave the endpoint as it is; with the connection open they hand exactly one
frame to `net::write`, the serialised ping (respectively pong) frame, and
return with `ec` set to the outcome of that write, a failure marking the
connection not open. -/
theorem stream_ping_pong_sync (s : stream) (payload : List Nat) (wr : error_code) :
    (s.is_open = false →
      s.ping payload wr = (.operation_aborted, s, []) ∧
      s.pong payload wr = (.operation_aborted, s, [])) ∧
    (s.is_open = true →
      s.ping payload wr =
        (wr, { s with is_open := !wr.failed }, [write_ping .ping payload]) ∧
      s.pong payload wr =
        (wr, { s with is_open := !wr.failed }, [write_ping .pong payload]) ∧
      (write_ping .ping payload).op = .ping ∧ (write_ping .pong payload).op = .pong) := by
  refine ⟨fun h => ?_, fun h => ?_⟩
  · simp [stream.ping, stream.pong, stream.check_open_sync, h]
  · have hs : s = { s with is_open := true } := by
      cases s
      simp only [stream.mk.injEq, and_true, true_and] at h ⊢
      exact h
    cases hf : wr.failed
    · simp [stream.ping, stream.pong, stream.check_open_sync, stream.check_ok, h, hf,
        write_ping]
      exact hs
    · simp [stream.ping, stream.pong, stream.check_open_sync, stream.check_ok, h, hf,
        write_ping]

/-- Witness for C12: a synchronous ping on the closed idle endpoint, and one on
the open idle endpoint whose write fails. -/
theorem stream_ping_pong_sync_witness :
    (stream.idle false).ping [1] .success = (.operation_aborted, stream.idle false, []) ∧
    (stream.idle true).ping [1] (.failure 5) =
      (.failure 5, { stream.idle true with is_open := !(error_code.failure 5).failed },
        [write_ping .ping [1]]) :=
  ⟨((stream_ping_pong_sync (stream.idle false) [1] .success).1 rfl).1,
    ((stream_ping_pong_sync (stream.idle true) [1] (.failure 5)).2 rfl).1⟩

end websocket

namespace http

/-- C13: on a range `[it, end)` of octets, `param_iter::increment` succeeds
(leaves `it` different from `begin`) exactly when the input is, after optional
leading SP/HTAB, `;` OWS token OWS `=` OWS ( token / quoted-string ) of the
grammar comment followed by some rest, the token value being matched greedily;
for every such reading of the input, `v.first` is the name, `v.second` is the
value (for a quoted-string with both double quotes, escapes unprocessed) and
`it` is just past the value.  On the comment's example
`;a=b;i=j,gzip;windowBits=12` successive calls give `(a, b)` with `it` at 4,
then `(i, j)` with `it` at 8, then fail at the comma, at offset 8. -/
theorem param_iter_increment_grammar (s : List Nat) (p : param_iter) (ho : octets s)
    (h1 : p.it ≤ p.end_) (h2 : p.end_ ≤ s.length) :
    ((p.increment s).it ≠ (p.increment s).begin ↔
      ∃ name value rest, grammar_param (range s p.it p.end_) name value rest) ∧
    (∀ name value rest, grammar_param (range s p.it p.end_) name value rest →
      (p.increment s).v.1.str s = name ∧ (p.increment s).v.2.str s = value ∧
        (p.increment s).it = p.end_ - rest.length) ∧
    (((param_iter.over sample_params).increment sample_params).v.1.str sample_params = [97] ∧
      ((param_iter.over sample_params).increment sample_params).v.2.str sample_params = [98] ∧
      ((param_iter.over sample_params).increment sample_params).it = 4 ∧
      (((param_iter.over sample_params).increment sample_params).increment
        sample_params).v.1.str sample_params = [105] ∧
      (((param_iter.over sample_params).increment sample_params).increment
        sample_params).v.2.str sample_params = [106] ∧
      (((param_iter.over sample_params).increment sample_params).increment
        sample_params).it = 8 ∧
      ((((param_iter.over sample_params).increment sample_params).increment
        sample_params).increment sample_params).empty = true ∧
      ((((param_iter.over sample_params).increment sample_params).increment
        sample_params).increment sample_params).it = 8 ∧
      deref sample_params 8 = 44) := by
  refine ⟨⟨increment_sound s p ho h1 h2, ?_⟩, ?_, by decide⟩
  · rintro ⟨name, value, rest, hg⟩
    exact Nat.ne_of_gt (increment_complete s p ho h1 h2 name value rest hg).1
  · intro name value rest hg
    have h := increment_complete s p ho h1 h2 name value rest hg
    exact ⟨h.2.2.1, h.2.2.2, h.2.1⟩

theorem param_iter_increment_grammar_witness :
    octets sample_params ∧
    ((param_iter.over sample_params).increment sample_params).it ≠
      ((param_iter.over sample_params).increment sample_params).begin ∧
    ∃ name value rest,
      grammar_param
        (range sample_params (param_iter.over sample_params).it
          (param_iter.over sample_params).end_) name value rest :=
  ⟨by unfold octets; decide, by decide,
    (param_iter_increment_grammar sample_params (param_iter.over sample_params)
      (by unfold octets; decide) (by decide) (by decide)).1.mp (by decide)⟩

end http

namespace websocket

/-- Counterexample to C14: a user write holds the lock and `sample_ping` waits
on the control queue; when the write completes, the cleanup of the write calls
`unlock` and the drain step then resumes the ping, which calls `lock` itself
and finds the lock free (the `true` of its `lock` entry).  The ping resumed on
an endpoint whose lock was released takes the lock by its own call. -/
theorem ping_op_lock_handoff_counterexample :
    sample_ping_queued.step (.write_done 0 .success) =
      some { is_open := true, wr_block_ := ⟨some 3⟩, paused_close_ := [], paused_rd_ := [],
             paused_wr_ := [], paused_ping_ := [],
             executor := [(sample_ping, .yield108, .success)], stream_ := [],
             trace := [.try_lock 3 true, .check_open 3 true, .async_write 3 ⟨.text, [3]⟩,
               .try_lock 1 false, .emplace .control 1, .unlock 3 true, .lock 1 true,
               .post 1, .invoke 3 .success] } ∧
    (sample_ping_queued.unlock sample_write).wr_block_.holder = none ∧
    (ping_op.call sample_ping .yield101 .success
        (sample_ping_queued.unlock sample_write)).2.wr_block_.holder = some 3 := by
  decide

/-- Claim C14, amended: a queued control-frame operation that is resumed
acquires the write lock itself, by `lock(this)` as the first statement of its
continuation, and then posts itself; the releaser has called `unlock` before the
drain step, so in every state the endpoint can reach every such `lock` found
the lock free, and the releaser's `unlock` is directly followed by the `lock`
and `post` of the waiter it resumes, with no other call in between.  From then
on the posted operation holds the lock until it is run again. -/
theorem ping_op_lock_handoff (self : operation) (ec : error_code) (s t : stream)
    (ht : t.reachable) :
    ping_op.call self .yield101 ec s =
      (.yield108, { s with
        wr_block_ := ⟨some self.id⟩,
        executor := s.executor ++ [(self, .yield108, .success)],
        trace := s.trace ++ [.lock self.handler (s.wr_block_.holder == none),
          .post self.handler] }) ∧
    (s.unlock self).wr_block_.holder = none ∧
    (∀ p ps, s.paused_close_ = [] → s.paused_rd_ = [] → s.paused_wr_ = [] →
      s.paused_ping_ = p :: ps →
      (composed_op.upcall self ec s).2.trace =
        s.trace ++ [.unlock self.handler (s.wr_block_.is_locked self.id),
          .lock p.handler true, .post p.handler, .invoke self.handler ec] ∧
      (composed_op.upcall self ec s).2.wr_block_.holder = some p.id) ∧
    (∀ h, event.lock h false ∉ t.trace) ∧
    (∀ p ∈ t.executor, t.wr_block_.is_locked p.1.id = true) := by
  refine ⟨ping_op_call_yield101 self ec s, rfl, ?_, (stream_reachable_lock_inv t ht).taken,
    fun p hp => by simp [soft_mutex.is_locked, ((stream_reachable_lock_inv t ht).posted p hp).1]⟩
  intro p ps hc hr hw hp
  rw [composed_op_upcall_ping self ec s p ps hc hr hw hp]
  exact ⟨rfl, rfl⟩

/-- Witness for C14 (amended): the sample endpoint on which the resumed ping is
posted is reachable, and the ping holds the lock it took. -/
theorem ping_op_lock_handoff_witness :
    sample_ping_resumed.reachable ∧
    sample_ping_resumed.wr_block_.is_locked sample_ping.id = true :=
  ⟨sample_ping_resumed_reachable,
    (ping_op_lock_handoff sample_ping .success sample_ping_resumed sample_ping_resumed
      sample_ping_resumed_reachable).2.2.2.2 (sample_ping, .yield108, .success)
      (List.mem_singleton.mpr rfl)⟩

end websocket

namespace http

set_option maxRecDepth 100000 in
/-- Claim C15: for every octet `c`, `to_field_char(c)` is 0 exactly when
`is_tchar(c)` is false, and otherwise it is `c` with `A`..`Z` mapped to
`a`..`z` and every other token character unchanged. -/
theorem to_field_char_lower_case (c : Nat) (h : c < 256) :
    (to_field_char c = 0 ↔ is_tchar c = false) ∧
    (is_tchar c = true →
      to_field_char c = if 65 ≤ c ∧ c ≤ 90 then (c : Int) + 32 else (c : Int)) := by
  revert c
  decide

/-- Witness for C15: the octet of `A`. -/
theorem to_field_char_lower_case_witness :
    to_field_char 65 = 97 :=
  ((to_field_char_lower_case 65 (by decide)).2 (by decide))

set_option maxRecDepth 100000 in
/-- Claim C16: for every octet `c`, `to_value_char(c)` is 0 exactly when
`is_text(c)` is false, and otherwise it is `c` with `A`..`Z` mapped to `a`..`z`
and every other text octet (HTAB and the octets 128 to 255 among them)
unchanged. -/
theorem to_value_char_lower_case (c : Nat) (h : c < 256) :
    (to_value_char c = 0 ↔ is_text c = false) ∧
    (is_text c = true →
      to_value_char c = if 65 ≤ c ∧ c ≤ 90 then (c : Int) + 32 else (c : Int)) ∧
    (c = 9 ∨ 128 ≤ c → is_text c = true) := by
  revert c
  decide

/-- Witness for C16: the octet 200. -/
theorem to_value_char_lower_case_witness :
    to_value_char 200 = 200 :=
  ((to_value_char_lower_case 200 (by decide)).2.1 (by decide))

set_option maxRecDepth 100000 in
/-- Claim C17: for every octet `c`, `is_tchar(c)` is true exactly when `c` is
one of the fifteen characters listed in its grammar comment or `is_digit(c)`
or `is_alpha(c)`, where `is_digit` is `0`..`9` and `is_alpha` is `A`..`Z`,
`a`..`z`; it is false for every separator, every control character and every
octet from 128 to 255. -/
theorem is_tchar_grammar (c : Nat) (h : c < 256) :
    (is_tchar c = true ↔
      c ∈ [33, 35, 36, 37, 38, 39, 42, 43, 45, 46, 94, 95, 96, 124, 126] ∨
        is_digit c = true ∨ is_alpha c = true) ∧
    (is_digit c = true ↔ 48 ≤ c ∧ c ≤ 57) ∧
    (is_alpha c = true ↔ (65 ≤ c ∧ c ≤ 90) ∨ (97 ≤ c ∧ c ≤ 122)) ∧
    (c ∈ [40, 41, 60, 62, 64, 44, 59, 58, 92, 34, 47, 91, 93, 63, 61, 123, 125, 32, 9] →
      is_tchar c = false) ∧
    (c < 32 ∨ c = 127 → is_tchar c = false) ∧
    (128 ≤ c → is_tchar c = false) := by
  revert c
  decide

/-- Witness for C17: the octet of the semicolon. -/
theorem is_tchar_grammar_witness :
    is_tchar 59 = false :=
  (is_tchar_grammar 59 (by decide)).2.2.2.1 (by decide)

set_option maxRecDepth 100000 in
/-- C18: on the code, `unhex` gives the value of a hexadecimal digit (`0..9`
for `'0'..'9'`, `10..15` for `'A'..'F'` and for `'a'..'f'`) and `-1` for every
other octet below 128; for every octet in 128..255 it gives `0`, not `-1`: the
table of 256 elements has 128 initialisers, and the remaining elements are
value-initialised. -/
theorem unhex_table (c : Nat) (h : c < 256) :
    unhex c =
      if 48 ≤ c ∧ c ≤ 57 then (c : Int) - 48
      else if 65 ≤ c ∧ c ≤ 70 then (c : Int) - 55
      else if 97 ≤ c ∧ c ≤ 102 then (c : Int) - 87
      else if c < 128 then -1
      else 0 := by
  revert c
  decide

theorem unhex_table_witness : unhex 128 = 0 :=
  unhex_table 128 (by decide)

/-- C19: after `param_iter::increment` on a range of octets, `empty()` is true
exactly when the input has no parameter of the grammar; `begin` is the position
after the leading SP/HTAB; when `empty()` is true, `v.first` and `v.second` are
empty, `it` equals `begin` and a further `increment` gives the same state again;
when `empty()` is false, `it` is strictly after `begin` and not past `end`, and
`v.first` and `v.second` are non-empty, `v.first` starting after `begin` and
ending before `v.second` starts, `v.second` ending at `it`. -/
theorem param_iter_increment_failure (s : List Nat) (p r : param_iter) (ho : octets s)
    (h1 : p.it ≤ p.end_) (h2 : p.end_ ≤ s.length) (hr : r = p.increment s) :
    (r.empty = true ↔
      ¬ ∃ name value rest, grammar_param (range s p.it p.end_) name value rest) ∧
    (∃ o t, range s p.it p.end_ = o ++ t ∧ grammar_ows o ∧
      (∀ c ∈ t.head?, ¬ (c = 32 ∨ c = 9)) ∧ r.begin = p.it + o.length) ∧
    r.end_ = p.end_ ∧
    (r.empty = true →
      r.v.1.len = 0 ∧ r.v.2.len = 0 ∧ r.v.1.str s = [] ∧ r.v.2.str s = [] ∧
        r.it = r.begin ∧ (r.increment s).empty = true ∧ (r.increment s).it = r.it ∧
        r.increment s = r) ∧
    (r.empty = false →
      r.begin < r.it ∧ r.it ≤ r.end_ ∧ 0 < r.v.1.len ∧ 0 < r.v.2.len ∧
        r.begin < r.v.1.ptr ∧ r.v.1.ptr + r.v.1.len < r.v.2.ptr ∧
        r.v.2.ptr + r.v.2.len = r.it) := by
  have hg : r.empty = true ↔
      ¬ ∃ name value rest, grammar_param (range s p.it p.end_) name value rest := by
    rw [hr]
    constructor
    · rintro he ⟨name, value, rest, hg⟩
      have := (increment_complete s p ho h1 h2 name value rest hg).1
      simp only [param_iter.empty, beq_iff_eq] at he
      omega
    · intro hn
      by_contra he
      apply hn
      apply increment_sound s p ho h1 h2
      intro h
      apply he
      simp only [param_iter.empty, beq_iff_eq]
      exact h.symm
  have hbegin : ∃ o t, range s p.it p.end_ = o ++ t ∧ grammar_ows o ∧
      (∀ c ∈ t.head?, ¬ (c = 32 ∨ c = 9)) ∧ skip_ows s p.it p.end_ = p.it + o.length := by
    obtain ⟨o, t, hl, ho, hsk, -, ht⟩ :=
      skip_ows_split s p.end_ p.it _ (cursor_start s p.it p.end_ h1 h2)
    exact ⟨o, t, hl, ho, ht, hsk⟩
  have hagain := increment_again s p
  rw [← hr] at hagain
  rcases increment_bounds s p h1 with hfail | ⟨b, q, p1, p2, x, hb, c1, c2, c3, c4, c5, heq⟩
  · rw [← hr] at hfail
    refine ⟨hg, ?_, ?_, ?_, ?_⟩
    · rw [hfail]
      exact hbegin
    · rw [hfail]
    · intro he
      have ha := hagain he h1
      rw [ha]
      refine ⟨?_, ?_, ?_, ?_, ?_, he, rfl, rfl⟩
      all_goals rw [hfail]
      all_goals simp [string_ref.clear, string_ref.str]
    · intro he
      rw [hfail] at he
      simp [param_iter.empty] at he
  · rw [← hr] at heq
    refine ⟨hg, ?_, ?_, ?_, ?_⟩
    · rw [heq]
      rw [hb] at hbegin
      exact hbegin
    · rw [heq]
    · intro he
      rw [heq] at he
      simp only [param_iter.empty, beq_iff_eq] at he
      omega
    · intro _
      rw [heq]
      simp only
      omega

theorem param_iter_increment_failure_witness :
    (param_iter.increment sample_params ⟨8, 4, 27, (⟨5, 1⟩, ⟨7, 1⟩)⟩).empty = true ∧
    (param_iter.increment sample_params
        (param_iter.increment sample_params ⟨8, 4, 27, (⟨5, 1⟩, ⟨7, 1⟩)⟩)) =
      param_iter.increment sample_params ⟨8, 4, 27, (⟨5, 1⟩, ⟨7, 1⟩)⟩ :=
  ⟨by decide,
    ((param_iter_increment_failure sample_params ⟨8, 4, 27, (⟨5, 1⟩, ⟨7, 1⟩)⟩ _
      (by unfold octets; decide) (by decide) (by decide) rfl).2.2.2.1
        (by decide)).2.2.2.2.2.2.2⟩

end http
